import Mathlib

/-!
Verification of the clickOR block scheduler, bumper selector, playlist
assembler and verifier against their natural-language specification.

The definitions below are a shallow embedding of the Python sources under
src/clickor/ (model.py, solver.py, bumpers.py, generate.py, yaml_out.py,
verify.py).  Pure functions are translated directly; the two CP-SAT solve
calls are modelled as an oracle supplying candidate variable assignments,
together with a predicate capturing the linear constraints the source posts
on those variables; the PRNG-driven shuffle and weighted choice are modelled
as explicit oracle parameters (a stream of shuffle outcomes keyed by the
seed that the source feeds to random.Random, and an index-choice stream),
and Python's process-randomized builtin str hash is modelled as an explicit
environment parameter.
-/

namespace Clickor

/-! ## Data model (model.py) -/

/-- Translation of model.Item.  Durations are non-negative integer seconds
(the config loader enforces this), so Nat. -/
structure Item where
  path : String
  duration_s : Nat
  pool : String
  media_type : String
  repeatable : Bool
  repeat_cost_s : Nat
  max_extra_uses : Nat
  season : Option Nat := none
  episode : Option Nat := none
deriving DecidableEq, Repr

/-- Junk element used only to make list indexing total; every access is
guarded by an in-range proof in the theorems. -/
def defaultItem : Item :=
  { path := "", duration_s := 0, pool := "", media_type := "",
    repeatable := false, repeat_cost_s := 0, max_extra_uses := 0 }

/-- Translation of model.BumperItem. -/
structure BumperItem where
  path : String
  duration_s : Nat
  media_type : String
deriving DecidableEq, Repr

def defaultBumper : BumperItem := { path := "", duration_s := 0, media_type := "" }

/-- Translation of model.BumperPoolConfig.  The source stores weight as a
Python float; only its sign is ever inspected (max(w, 0.0) and a
sum-of-nonnegatives <= 0 test), so Rat is a faithful carrier. -/
structure BumperPoolConfig where
  name : String
  weight : Rat
  items : List BumperItem
deriving DecidableEq, Repr

/-- Translation of model.BumpersConfig.  Python dicts preserve insertion
order, so pools is an ordered association list. -/
structure BumpersConfig where
  slots_per_break : Nat
  mixing_strategy : String
  pools : List (String × BumperPoolConfig)
deriving DecidableEq, Repr

/-- Translation of model.PoolConfig. -/
structure PoolConfig where
  name : String
  default_type : String
  sequential : Bool
  default_repeatable : Bool
  default_repeat_cost_s : Nat
  default_max_extra_uses : Nat
  dominant_block_threshold_s : Nat
  dominant_block_penalty_s : Nat
deriving DecidableEq, Repr

/-- Translation of model.SolverConfig. -/
structure SolverConfig where
  block_s : Nat
  longform_consumes_block : Bool
  allow_short_overflow_s : Nat
  time_limit_sec : Nat
  seed : Nat
deriving DecidableEq, Repr

/-- Translation of model.ChannelConfig.  The channel and schedule members
are opaque string-keyed dicts that the scheduler never inspects (they are
copied verbatim into the YAML header), so they are omitted here. -/
structure ChannelConfig where
  solver : SolverConfig
  bumpers : BumpersConfig
  pools : List (String × PoolConfig)
  items : List Item
deriving DecidableEq, Repr

/-! ## Greedy bin packer (solver.py, _first_fit_decreasing_bins) -/

/-- Inner placement loop of _first_fit_decreasing_bins: scan the open bins
in order, put index i into the first bin whose remaining capacity is at
least d, and open a fresh bin at the end otherwise.  Bins are paired with
their remaining capacity; Python tracks the remainder as a signed int, so
Int here. -/
def ffdInsert (cap d : Int) (i : Nat) : List (List Nat × Int) → List (List Nat × Int)
  | [] => [([i], cap - d)]
  | (bin, rem) :: rest =>
      if d ≤ rem then (bin ++ [i], rem - d) :: rest
      else (bin, rem) :: ffdInsert cap d i rest

/-- Duration of the i-th short item. -/
def shortDur (shortItems : List Item) (i : Nat) : Nat :=
  (shortItems.getD i defaultItem).duration_s

/-- Stable descending insertion of index i into an already-sorted list:
i is placed before the first element with a strictly smaller key, hence
after every earlier element of equal key, exactly the tie behaviour of
Python's stable sorted(..., reverse=True). -/
def insertDesc (key : Nat → Nat) (i : Nat) : List Nat → List Nat
  | [] => [i]
  | j :: rest => if key j < key i then i :: j :: rest else j :: insertDesc key i rest

/-- Stable sort by key, largest first; extensionally the same function as
Python's sorted(l, key=key, reverse=True). -/
def sortDesc (key : Nat → Nat) (l : List Nat) : List Nat :=
  l.foldl (fun acc i => insertDesc key i acc) []

theorem insertDesc_perm (key : Nat → Nat) (i : Nat) (l : List Nat) :
    (insertDesc key i l).Perm (i :: l) := by
  induction l with
  | nil => simp [insertDesc]
  | cons j rest ih =>
      by_cases h : key j < key i
      · simp [insertDesc, h]
      · simp only [insertDesc, h, if_false]
        exact (ih.cons j).trans (List.Perm.swap i j rest)

theorem insertDesc_sorted (key : Nat → Nat) (i : Nat) (l : List Nat)
    (hl : l.Pairwise (fun a b => key b ≤ key a)) :
    (insertDesc key i l).Pairwise (fun a b => key b ≤ key a) := by
  induction l with
  | nil => simp [insertDesc]
  | cons j rest ih =>
      rcases List.pairwise_cons.mp hl with ⟨hj, hrest⟩
      by_cases h : key j < key i
      · rw [insertDesc, if_pos h]
        refine List.pairwise_cons.mpr ⟨?_, hl⟩
        intro b hb
        rcases List.mem_cons.mp hb with hb | hb
        · subst hb; omega
        · have := hj b hb
          omega
      · rw [insertDesc, if_neg h]
        refine List.pairwise_cons.mpr ⟨?_, ih hrest⟩
        intro b hb
        have hb2 := (insertDesc_perm key i rest).mem_iff.mp hb
        rcases List.mem_cons.mp hb2 with hb2 | hb2
        · subst hb2; omega
        · exact hj b hb2

theorem sortDesc_foldl_perm (key : Nat → Nat) (l : List Nat) :
    ∀ acc, (l.foldl (fun acc i => insertDesc key i acc) acc).Perm (l ++ acc) := by
  induction l with
  | nil => intro acc; simp
  | cons i rest ih =>
      intro acc
      simp only [List.foldl_cons, List.cons_append]
      refine (ih (insertDesc key i acc)).trans ?_
      refine (List.Perm.append_left rest (insertDesc_perm key i acc)).trans ?_
      exact List.perm_middle

theorem sortDesc_perm (key : Nat → Nat) (l : List Nat) : (sortDesc key l).Perm l := by
  simpa [sortDesc] using sortDesc_foldl_perm key l []

theorem sortDesc_sorted (key : Nat → Nat) (l : List Nat) :
    (sortDesc key l).Pairwise (fun a b => key b ≤ key a) := by
  have aux : ∀ acc, acc.Pairwise (fun a b => key b ≤ key a) →
      (l.foldl (fun acc i => insertDesc key i acc) acc).Pairwise (fun a b => key b ≤ key a) := by
    induction l with
    | nil => intro acc h; simpa using h
    | cons i rest ih =>
        intro acc h
        simp only [List.foldl_cons]
        exact ih _ (insertDesc_sorted key i acc h)
  simpa [sortDesc] using aux [] (by simp)

/-- Translation of solver._first_fit_decreasing_bins.  Python's
sorted(range(n), key=duration, reverse=True) is the stable descending sort
sortDesc.  Returns bins as lists of indices into shortItems. -/
def firstFitDecreasingBins (shortItems : List Item) (cap_s : Nat) : List (List Nat) :=
  let n := shortItems.length
  let order := sortDesc (shortDur shortItems) (List.range n)
  (order.foldl
    (fun bins i => ffdInsert (cap_s : Int) (shortDur shortItems i : Int) i bins)
    []).map Prod.fst

/-! ### Helper lemmas about ffdInsert -/

theorem ffdInsert_ne_nil (cap d : Int) (i : Nat) (bins : List (List Nat × Int)) :
    ffdInsert cap d i bins ≠ [] := by
  cases bins with
  | nil => simp [ffdInsert]
  | cons hd tl =>
      obtain ⟨bin, rem⟩ := hd
      by_cases h : d ≤ rem <;> simp [ffdInsert, h]

/-- Multiset of indices after an insertion: exactly the old indices plus i. -/
theorem ffdInsert_flatten_perm (cap d : Int) (i : Nat) (bins : List (List Nat × Int)) :
    ((ffdInsert cap d i bins).map Prod.fst).flatten.Perm
      (i :: (bins.map Prod.fst).flatten) := by
  induction bins with
  | nil => simp [ffdInsert]
  | cons hd tl ih =>
      obtain ⟨bin, rem⟩ := hd
      by_cases h : d ≤ rem
      · simp only [ffdInsert, h, if_true, List.map_cons, List.flatten_cons]
        have : (bin ++ [i]) ++ (tl.map Prod.fst).flatten
            = bin ++ i :: (tl.map Prod.fst).flatten := by simp
        rw [this]
        exact List.perm_middle
      · simp only [ffdInsert, h, if_false, List.map_cons, List.flatten_cons]
        refine ((List.Perm.append_left bin ih).trans ?_)
        exact List.perm_middle

/-- Bin bookkeeping invariant: each open bin's content plus its remaining
capacity accounts exactly for the capacity, and the remainder never goes
negative as long as no single item exceeds the capacity. -/
def BinsInv (shortItems : List Item) (cap : Int) (bins : List (List Nat × Int)) : Prop :=
  ∀ p ∈ bins, ((p.1.map (fun i => (shortDur shortItems i : Int))).sum + p.2 = cap) ∧ 0 ≤ p.2

theorem ffdInsert_inv (shortItems : List Item) (cap : Int) (i : Nat)
    (hd : (shortDur shortItems i : Int) ≤ cap)
    (bins : List (List Nat × Int)) (hinv : BinsInv shortItems cap bins) :
    BinsInv shortItems cap (ffdInsert cap (shortDur shortItems i) i bins) := by
  induction bins with
  | nil =>
      intro p hp
      simp only [ffdInsert, List.mem_singleton] at hp
      subst hp
      constructor
      · simp
      · simpa using hd
  | cons hd2 tl ih =>
      obtain ⟨bin, rem⟩ := hd2
      have h1 : ((bin.map (fun j => (shortDur shortItems j : Int))).sum + rem = cap) ∧ 0 ≤ rem := by
        simpa using hinv (bin, rem) (List.mem_cons_self _ _)
      have htl : BinsInv shortItems cap tl := fun p hp => hinv p (List.mem_cons_of_mem _ hp)
      by_cases h : (shortDur shortItems i : Int) ≤ rem
      · intro p hp
        simp only [ffdInsert, h, if_true, List.mem_cons] at hp
        rcases hp with hp | hp
        · subst hp
          constructor
          · simp only [List.map_append, List.sum_append, List.map_cons, List.map_nil,
              List.sum_cons, List.sum_nil, add_zero]
            have := h1.1
            omega
          · simp only
            omega
        · exact htl p hp
      · intro p hp
        simp only [ffdInsert, h, if_false, List.mem_cons] at hp
        rcases hp with hp | hp
        · subst hp
          simpa using h1
        · exact ih htl p hp

/-- One step of the FFD fold. -/
def ffdStep (shortItems : List Item) (cap : Int) (bins : List (List Nat × Int)) (i : Nat) :
    List (List Nat × Int) :=
  ffdInsert cap (shortDur shortItems i) i bins

theorem ffdFold_inv (shortItems : List Item) (cap : Int) (order : List Nat)
    (hcap : ∀ i ∈ order, (shortDur shortItems i : Int) ≤ cap) :
    ∀ start, BinsInv shortItems cap start →
      BinsInv shortItems cap (order.foldl (ffdStep shortItems cap) start) := by
  induction order with
  | nil => intro start h; simpa using h
  | cons i rest ih =>
      intro start h
      simp only [List.foldl_cons]
      exact ih (fun j hj => hcap j (List.mem_cons_of_mem _ hj)) _
        (ffdInsert_inv shortItems cap i (hcap i (List.mem_cons_self _ _)) start h)

theorem ffdFold_flatten_perm (shortItems : List Item) (cap : Int) (order : List Nat) :
    ∀ start, (((order.foldl (ffdStep shortItems cap) start).map Prod.fst).flatten).Perm
      (order ++ (start.map Prod.fst).flatten) := by
  induction order with
  | nil => intro start; simp
  | cons i rest ih =>
      intro start
      simp only [List.foldl_cons, List.cons_append]
      refine (ih (ffdStep shortItems cap start i)).trans ?_
      refine (List.Perm.append_left rest (ffdInsert_flatten_perm cap _ i start)).trans ?_
      exact List.perm_middle

theorem ffdFold_ne_nil_of_start (shortItems : List Item) (cap : Int) (order : List Nat) :
    ∀ start, start ≠ [] → order.foldl (ffdStep shortItems cap) start ≠ [] := by
  induction order with
  | nil => intro start h; simpa using h
  | cons i rest ih =>
      intro start _
      simp only [List.foldl_cons]
      exact ih _ (ffdInsert_ne_nil _ _ _ _)

theorem ffdFold_ne_nil (shortItems : List Item) (cap : Int) (i : Nat) (rest : List Nat) :
    (i :: rest).foldl (ffdStep shortItems cap) [] ≠ [] := by
  simp only [List.foldl_cons]
  exact ffdFold_ne_nil_of_start shortItems cap rest _ (ffdInsert_ne_nil _ _ _ _)

/-- Order in which FFD considers the short items: indices sorted by
duration, largest first, stably. -/
def ffdOrder (shortItems : List Item) : List Nat :=
  sortDesc (shortDur shortItems) (List.range shortItems.length)

theorem firstFitDecreasingBins_eq (shortItems : List Item) (cap_s : Nat) :
    firstFitDecreasingBins shortItems cap_s
      = ((ffdOrder shortItems).foldl (ffdStep shortItems (cap_s : Int)) []).map Prod.fst := rfl

/-- Claim C9: the greedy packer is First-Fit Decreasing: it scans the short
items in nonincreasing duration order (a permutation of all short-item
indices), placing each into the first bin with sufficient remaining
capacity out of capacity block_s + allow_short_overflow_s (the ffdInsert
step) and opening a new bin otherwise; the produced bins partition the
short-item indices (the concatenation of the bins is a permutation of
range n, so every index lands in exactly one bin), and, provided every
short item fits the capacity on its own, every bin's total duration is at
most the capacity. -/
theorem c9_first_fit_decreasing (shortItems : List Item) (cap_s : Nat)
    (hcap : ∀ i < shortItems.length, shortDur shortItems i ≤ cap_s) :
    (ffdOrder shortItems).Perm (List.range shortItems.length) ∧
    (ffdOrder shortItems).Pairwise
      (fun i j => shortDur shortItems j ≤ shortDur shortItems i) ∧
    (firstFitDecreasingBins shortItems cap_s).flatten.Perm
      (List.range shortItems.length) ∧
    (∀ bin ∈ firstFitDecreasingBins shortItems cap_s,
      (bin.map (shortDur shortItems)).sum ≤ cap_s) := by
  have horder : (ffdOrder shortItems).Perm (List.range shortItems.length) :=
    sortDesc_perm _ _
  refine ⟨horder, ?_, ?_, ?_⟩
  · exact sortDesc_sorted _ _
  · have := ffdFold_flatten_perm shortItems (cap_s : Int) (ffdOrder shortItems) []
    rw [firstFitDecreasingBins_eq]
    simpa using this.trans (by simpa using horder)
  · intro bin hbin
    rw [firstFitDecreasingBins_eq] at hbin
    obtain ⟨⟨bin2, rem⟩, hmem, hfst⟩ := List.mem_map.mp hbin
    have hinv := ffdFold_inv shortItems (cap_s : Int) (ffdOrder shortItems)
      (fun i hi => by
        have hi2 : i < shortItems.length := by
          have := horder.mem_iff.mp hi
          simpa [List.mem_range] using this
        exact_mod_cast hcap i hi2)
      [] (by intro p hp; simp at hp)
    have hbininv := hinv _ hmem
    have hsum : ((bin2.map (fun j => (shortDur shortItems j : Int))).sum) ≤ (cap_s : Int) := by
      have h1 := hbininv.1
      have h2 := hbininv.2
      simp only at h1 h2
      omega
    have hcast : ((bin2.map (shortDur shortItems)).sum : Int)
        = (bin2.map (fun j => (shortDur shortItems j : Int))).sum := by
      rw [Nat.cast_list_sum, List.map_map]
      rfl
    have : ((bin2.map (shortDur shortItems)).sum : Int) ≤ (cap_s : Int) := by
      rw [hcast]; exact hsum
    have := Int.ofNat_le.mp (by exact_mod_cast this)
    simpa [← hfst] using this

/-- Concrete three-item library used to exercise the bin packer. -/
def c9Items : List Item :=
  [{ defaultItem with path := "a", duration_s := 20 },
   { defaultItem with path := "b", duration_s := 10 },
   { defaultItem with path := "c", duration_s := 15 }]

/-- Concrete check of c9_first_fit_decreasing on a three-item library. -/
theorem c9_first_fit_decreasing_witness :
    (∀ i < c9Items.length, shortDur c9Items i ≤ 30) ∧
    (firstFitDecreasingBins c9Items 30).flatten.Perm (List.range c9Items.length) ∧
    (∀ bin ∈ firstFitDecreasingBins c9Items 30, (bin.map (shortDur c9Items)).sum ≤ 30) :=
  ⟨by decide,
   (c9_first_fit_decreasing c9Items 30 (by decide)).2.2.1,
   (c9_first_fit_decreasing c9Items 30 (by decide)).2.2.2⟩

/-! ## Block scheduler (solver.py, solve_minimal_cycle) -/

/-- Translation of solver.SolvedBlock.  waste_s is a Python int difference,
hence Int. -/
structure SolvedBlock where
  index : Nat
  items : List Item
  is_long : Bool
  base_items_count : Nat
  repeat_items_count : Nat
  content_duration_s : Nat
  waste_s : Int
deriving DecidableEq, Repr

/-- Translation of solver.SolveResult. -/
structure SolveResult where
  target_block_s : Nat
  blocks : List SolvedBlock
  repeats_used : Nat
  total_waste_s : Int
  seed : Nat
deriving DecidableEq, Repr

def defaultBlock : SolvedBlock :=
  { index := 0, items := [], is_long := false, base_items_count := 0,
    repeat_items_count := 0, content_duration_s := 0, waste_s := 0 }

/-- A candidate assignment for the CP-SAT booleans of Phase 2 of
solve_minimal_cycle: y (block used), xs (base short item in block),
xl (long item in block), long_present, and r (filler repeat in block). -/
structure CpSol where
  y : Nat → Bool
  xs : Nat → Nat → Bool
  xl : Nat → Nat → Bool
  lp : Nat → Bool
  r : Nat → Nat → Bool

/-- The two blocking CP-SAT solve calls of solve_minimal_cycle, abstracted
as an oracle.  none models the engine returning neither OPTIMAL nor
FEASIBLE within the time limit; some models a returned assignment. -/
structure CpOracle where
  phase1 : Option CpSol
  phase2 : Option CpSol

/-- Error kinds surfaced by the embedded pipeline, one per distinct raise
site: SolverError with the no-content message, SolverError for each
infeasible phase, the GenerateError for an unreplaced auto seed, and the
ValueError raises of BumperSelector construction and use. -/
inductive Err where
  | noContent
  | infeasibleBase
  | infeasibleFiller
  | seedZeroAuto
  | valueError
deriving DecidableEq, Repr

/-- Value of a CP boolean in a linear expression. -/
def bNat (x : Bool) : Nat := if x then 1 else 0

/-- Finite sum over indices 0, ..., n-1. -/
def rsum (n : Nat) (f : Nat → Nat) : Nat := ((List.range n).map f).sum

/-- The Phase-2 constraints of solve_minimal_cycle that involve the
variables y, xs, xl, long_present and r, translated from the model2.Add
calls (solver.py lines 220-309): each base item in exactly one block, at
most one long item per block, long_present tied to the xl sum (the source
branches on I_long but both branches reduce to this sum), no shorts and no
repeats in long blocks, usage linking, prefix symmetry, and the conditional
capacity bound on base-plus-repeat seconds.  The sequential-ordering,
repeat-budget and dominance constraints also posted by the source restrict
the same assignments further but are not needed for the invariants proved
here, so a solution of the full model a fortiori satisfies this
predicate. -/
@[reducible] def p2Feasible (ns nl B : Nat) (dur : Nat → Nat) (ceiling : Nat) (s : CpSol) : Prop :=
  (∀ i < ns, rsum B (fun b => bNat (s.xs i b)) = 1) ∧
  (∀ l < nl, rsum B (fun b => bNat (s.xl l b)) = 1) ∧
  (∀ b < B, rsum nl (fun l => bNat (s.xl l b)) ≤ 1) ∧
  (∀ b < B, bNat (s.lp b) = rsum nl (fun l => bNat (s.xl l b))) ∧
  (∀ b < B, s.lp b = true → rsum ns (fun i => bNat (s.xs i b)) = 0) ∧
  (∀ b < B, ∀ i < ns, bNat (s.xs i b) ≤ bNat (s.y b)) ∧
  (∀ b < B, ∀ l < nl, bNat (s.xl l b) ≤ bNat (s.y b)) ∧
  (∀ b < B, bNat (s.lp b) ≤ bNat (s.y b)) ∧
  (∀ b < B, b + 1 < B → bNat (s.y (b + 1)) ≤ bNat (s.y b)) ∧
  (∀ b < B, ∀ i < ns, s.lp b = true → s.r i b = false) ∧
  (∀ b < B, s.lp b = false →
    rsum ns (fun i => dur i * (bNat (s.xs i b) + bNat (s.r i b))) ≤ ceiling)

/-- Long item extracted for block b (solver.py lines 419-423): the first
long index assigned there, if any. -/
def longInBlock (longItems : List Item) (s : CpSol) (b : Nat) : Option Item :=
  ((List.range longItems.length).find? (fun l => s.xl l b)).map
    (fun l => longItems.getD l defaultItem)

/-- Base short items of block b in ascending short-index order
(solver.py lines 425-429). -/
def baseItemsIn (shortItems : List Item) (s : CpSol) (b : Nat) : List Item :=
  ((List.range shortItems.length).filter (fun i => s.xs i b)).map
    (fun i => shortItems.getD i defaultItem)

/-- Repeated short items of block b in ascending short-index order
(solver.py lines 430-432). -/
def repeatItemsIn (shortItems : List Item) (s : CpSol) (b : Nat) : List Item :=
  ((List.range shortItems.length).filter (fun i => s.r i b)).map
    (fun i => shortItems.getD i defaultItem)

/-- Block assembly for one used block b (solver.py lines 417-456): the long
item first if present, then base shorts, then repeats; duration and waste
accounting as in the source. -/
def extractBlock (shortItems longItems : List Item) (ceiling_s : Nat) (s : CpSol)
    (outIdx b : Nat) : SolvedBlock :=
  let longIt := longInBlock longItems s b
  let base := baseItemsIn shortItems s b
  let reps := repeatItemsIn shortItems s b
  let isLong := longIt.isSome
  let itemsIn := longIt.toList ++ base ++ reps
  let content := if isLong then (longIt.getD defaultItem).duration_s
                 else (itemsIn.map Item.duration_s).sum
  { index := outIdx
    items := itemsIn
    is_long := isLong
    base_items_count := base.length + (if isLong then 1 else 0)
    repeat_items_count := reps.length
    content_duration_s := content
    waste_s := if isLong then 0 else (ceiling_s : Int) - (content : Int) }

/-- Blocks with y[b] = 1, in ascending b (solver.py lines 408-411). -/
def usedBlocksList (B : Nat) (s : CpSol) : List Nat :=
  (List.range B).filter (fun b => s.y b)

/-- The enumerate loop over used blocks (solver.py line 417). -/
def extractBlocksGo (shortItems longItems : List Item) (ceiling_s : Nat) (s : CpSol) :
    Nat → List Nat → List SolvedBlock
  | _, [] => []
  | outIdx, b :: rest =>
      extractBlock shortItems longItems ceiling_s s outIdx b ::
        extractBlocksGo shortItems longItems ceiling_s s (outIdx + 1) rest

/-- The long/short partition of cfg.items (solver.py lines 98-104),
preserving input order. -/
def longItemsOf (cfg : ChannelConfig) : List Item :=
  cfg.items.filter
    (fun it => cfg.solver.longform_consumes_block && decide (cfg.solver.block_s ≤ it.duration_s))

def shortItemsOf (cfg : ChannelConfig) : List Item :=
  cfg.items.filter
    (fun it => !(cfg.solver.longform_consumes_block && decide (cfg.solver.block_s ≤ it.duration_s)))

/-- Hard capacity of a non-long block. -/
def ceilingOf (cfg : ChannelConfig) : Nat :=
  cfg.solver.block_s + cfg.solver.allow_short_overflow_s

/-- Candidate block count B = L + UB_short (solver.py lines 106-109). -/
def ubTotalOf (cfg : ChannelConfig) : Nat :=
  (longItemsOf cfg).length
    + (firstFitDecreasingBins (shortItemsOf cfg) (ceilingOf cfg)).length

/-- Translation of solver.solve_minimal_cycle with the two CP-SAT calls
supplied by the oracle: the no-content guard, the per-phase infeasibility
raises, then block extraction and result accounting from the Phase-2
assignment. -/
def solve_minimal_cycle (cfg : ChannelConfig) (oracle : CpOracle) :
    Except Err SolveResult :=
  if ubTotalOf cfg = 0 then Except.error Err.noContent
  else
    match oracle.phase1 with
    | none => Except.error Err.infeasibleBase
    | some _ =>
      match oracle.phase2 with
      | none => Except.error Err.infeasibleFiller
      | some sol2 =>
        let blocks := extractBlocksGo (shortItemsOf cfg) (longItemsOf cfg)
          (ceilingOf cfg) sol2 0 (usedBlocksList (ubTotalOf cfg) sol2)
        Except.ok
          { target_block_s := cfg.solver.block_s
            blocks := blocks
            repeats_used := (blocks.map SolvedBlock.repeat_items_count).sum
            total_waste_s :=
              ((blocks.filter (fun blk => !blk.is_long)).map SolvedBlock.waste_s).sum
            seed := cfg.solver.seed }

/-! ### Emptiness facts for the no-content guard -/

theorem ffdBins_eq_nil_iff (shortItems : List Item) (cap_s : Nat) :
    firstFitDecreasingBins shortItems cap_s = [] ↔ shortItems = [] := by
  constructor
  · intro h
    by_contra hne
    have hlen : shortItems.length ≠ 0 := fun h0 => hne (List.length_eq_zero.mp h0)
    have hord : (ffdOrder shortItems).length = shortItems.length := by
      simpa using (sortDesc_perm (shortDur shortItems) (List.range shortItems.length)).length_eq
    rw [firstFitDecreasingBins_eq] at h
    cases hcase : ffdOrder shortItems with
    | nil => rw [hcase] at hord; simp at hord; exact hlen hord.symm
    | cons i rest =>
        rw [hcase] at h
        simp only [List.map_eq_nil_iff] at h
        exact ffdFold_ne_nil shortItems (cap_s : Int) i rest h
  · intro h
    subst h
    rfl

theorem filter_both_nil {α : Type} (p : α → Bool) (l : List α)
    (h1 : l.filter p = []) (h2 : l.filter (fun a => !(p a)) = []) : l = [] := by
  induction l with
  | nil => rfl
  | cons a rest ih =>
      by_cases hp : p a
      · simp [List.filter_cons, hp] at h1
      · simp [List.filter_cons, hp] at h1 h2

theorem ubTotalOf_eq_zero_iff (cfg : ChannelConfig) :
    ubTotalOf cfg = 0 ↔ cfg.items = [] := by
  constructor
  · intro h
    have hlong : longItemsOf cfg = [] := by
      have : (longItemsOf cfg).length = 0 := by
        simp only [ubTotalOf] at h
        omega
      exact List.length_eq_zero.mp this
    have hshort : shortItemsOf cfg = [] := by
      have hbins : (firstFitDecreasingBins (shortItemsOf cfg) (ceilingOf cfg)).length = 0 := by
        simp only [ubTotalOf] at h
        omega
      exact (ffdBins_eq_nil_iff _ _).mp (List.length_eq_zero.mp hbins)
    exact filter_both_nil _ cfg.items hlong hshort
  · intro h
    simp [ubTotalOf, longItemsOf, shortItemsOf, h, firstFitDecreasingBins, sortDesc]

/-- Claim C5: solve_minimal_cycle fails with the distinguished no-content
error exactly when UB_total = 0, which happens exactly when the config has
zero content items; and that error kind is distinct from the two
infeasible-phase error kinds raised when a CP phase returns neither
OPTIMAL nor FEASIBLE. -/
theorem c5_no_content_error (cfg : ChannelConfig) (oracle : CpOracle) :
    ((solve_minimal_cycle cfg oracle = Except.error Err.noContent)
        ↔ ubTotalOf cfg = 0) ∧
    (ubTotalOf cfg = 0 ↔ cfg.items = []) ∧
    Err.noContent ≠ Err.infeasibleBase ∧
    Err.noContent ≠ Err.infeasibleFiller := by
  refine ⟨?_, ubTotalOf_eq_zero_iff cfg, by simp, by simp⟩
  constructor
  · intro h
    by_contra hub
    rw [solve_minimal_cycle, if_neg hub] at h
    cases h1 : oracle.phase1 with
    | none => rw [h1] at h; simp at h
    | some s1 =>
        rw [h1] at h
        cases h2 : oracle.phase2 with
        | none => rw [h2] at h; simp at h
        | some s2 => rw [h2] at h; simp at h
  · intro h
    rw [solve_minimal_cycle, if_pos h]

/-! ### Arithmetic helpers for the CP constraint sums -/

theorem bNat_le_one (x : Bool) : bNat x ≤ 1 := by cases x <;> simp [bNat]

theorem rsum_succ (n : Nat) (f : Nat → Nat) : rsum (n + 1) f = rsum n f + f n := by
  simp [rsum, List.range_succ]

theorem rsum_congr {n : Nat} {f g : Nat → Nat} (h : ∀ i < n, f i = g i) :
    rsum n f = rsum n g := by
  induction n with
  | zero => rfl
  | succ m ih =>
      rw [rsum_succ, rsum_succ, ih (fun i hi => h i (Nat.lt_succ_of_lt hi)),
        h m (Nat.lt_succ_self m)]

theorem rsum_add (n : Nat) (f g : Nat → Nat) :
    rsum n (fun i => f i + g i) = rsum n f + rsum n g := by
  induction n with
  | zero => rfl
  | succ m ih =>
      rw [rsum_succ, rsum_succ, rsum_succ, ih]
      omega

theorem rsum_eq_zero {n : Nat} {f : Nat → Nat} : rsum n f = 0 ↔ ∀ i < n, f i = 0 := by
  induction n with
  | zero => simp [rsum]
  | succ m ih =>
      rw [rsum_succ]
      constructor
      · intro h i hi
        rcases Nat.lt_succ_iff_lt_or_eq.mp hi with hi | hi
        · exact (ih.mp (by omega)) i hi
        · subst hi; omega
      · intro h
        have h1 : rsum m f = 0 := ih.mpr (fun i hi => h i (Nat.lt_succ_of_lt hi))
        have h2 := h m (Nat.lt_succ_self m)
        omega

theorem rsum_ne_zero_of_mem {n : Nat} {f : Nat → Nat} (i : Nat) (hi : i < n)
    (hfi : f i ≠ 0) : rsum n f ≠ 0 := by
  intro h
  exact hfi (rsum_eq_zero.mp h i hi)

theorem rsum_bNat_all_false {n : Nat} {f : Nat → Bool}
    (h : rsum n (fun i => bNat (f i)) = 0) : ∀ i < n, f i = false := by
  intro i hi
  have := rsum_eq_zero.mp h i hi
  cases hf : f i
  · rfl
  · rw [hf] at this; simp [bNat] at this

/-- A filtered slice of range summed through a map, as a conditional
rsum. -/
theorem range_filter_map_sum (n : Nat) (p : Nat → Bool) (g : Nat → Nat) :
    (((List.range n).filter p).map g).sum
      = rsum n (fun i => if p i then g i else 0) := by
  induction n with
  | zero => rfl
  | succ m ih =>
      rw [List.range_succ, List.filter_append, List.map_append, List.sum_append, ih,
        rsum_succ]
      by_cases hp : p m <;> simp [hp]

/-! ### Extraction lemmas -/

theorem extractBlocksGo_length (shortItems longItems : List Item) (ceiling_s : Nat)
    (s : CpSol) : ∀ bs outIdx,
    (extractBlocksGo shortItems longItems ceiling_s s outIdx bs).length = bs.length := by
  intro bs
  induction bs with
  | nil => intro outIdx; rfl
  | cons b rest ih => intro outIdx; simp [extractBlocksGo, ih]

theorem extractBlocksGo_getD (shortItems longItems : List Item) (ceiling_s : Nat)
    (s : CpSol) : ∀ bs outIdx k, k < bs.length →
    (extractBlocksGo shortItems longItems ceiling_s s outIdx bs).getD k defaultBlock
      = extractBlock shortItems longItems ceiling_s s (outIdx + k) (bs.getD k 0) := by
  intro bs
  induction bs with
  | nil => intro outIdx k hk; simp at hk
  | cons b rest ih =>
      intro outIdx k hk
      cases k with
      | zero => simp [extractBlocksGo]
      | succ k2 =>
          have hk2 : k2 < rest.length := by simpa using hk
          simp only [extractBlocksGo, List.getD_cons_succ]
          rw [ih (outIdx + 1) k2 hk2]
          congr 1
          omega

theorem extractBlocksGo_mem (shortItems longItems : List Item) (ceiling_s : Nat)
    (s : CpSol) : ∀ bs outIdx blk,
    blk ∈ extractBlocksGo shortItems longItems ceiling_s s outIdx bs →
      ∃ b ∈ bs, ∃ oi, blk = extractBlock shortItems longItems ceiling_s s oi b := by
  intro bs
  induction bs with
  | nil => intro outIdx blk h; simp [extractBlocksGo] at h
  | cons b rest ih =>
      intro outIdx blk h
      simp only [extractBlocksGo, List.mem_cons] at h
      rcases h with h | h
      · exact ⟨b, List.mem_cons_self _ _, outIdx, h⟩
      · obtain ⟨b2, hb2, oi, hblk⟩ := ih (outIdx + 1) blk h
        exact ⟨b2, List.mem_cons_of_mem _ hb2, oi, hblk⟩

theorem mem_usedBlocksList {B : Nat} {s : CpSol} {b : Nat} :
    b ∈ usedBlocksList B s ↔ b < B ∧ s.y b = true := by
  simp [usedBlocksList, List.mem_filter, List.mem_range]

/-- Shape of solve_minimal_cycle's successful result. -/
theorem solve_ok_blocks (cfg : ChannelConfig) (oracle : CpOracle) (sol2 : CpSol)
    (res : SolveResult) (hp2 : oracle.phase2 = some sol2)
    (hok : solve_minimal_cycle cfg oracle = Except.ok res) :
    res.blocks = extractBlocksGo (shortItemsOf cfg) (longItemsOf cfg) (ceilingOf cfg)
      sol2 0 (usedBlocksList (ubTotalOf cfg) sol2) := by
  rw [solve_minimal_cycle] at hok
  by_cases hub : ubTotalOf cfg = 0
  · rw [if_pos hub] at hok; simp at hok
  · rw [if_neg hub] at hok
    cases h1 : oracle.phase1 with
    | none => rw [h1] at hok; simp at hok
    | some s1 =>
        rw [h1, hp2] at hok
        simp only [Except.ok.injEq] at hok
        rw [← hok]

/-- The long item reported for a block, when present, is a genuine
assigned long item. -/
theorem longInBlock_some {longItems : List Item} {s : CpSol} {b : Nat} {it : Item}
    (h : longInBlock longItems s b = some it) :
    ∃ l < longItems.length, s.xl l b = true ∧ it = longItems.getD l defaultItem := by
  simp only [longInBlock, Option.map_eq_some'] at h
  obtain ⟨l, hfind, hit⟩ := h
  have hl1 : l ∈ List.range longItems.length := List.mem_of_find?_eq_some hfind
  have hl2 := List.find?_some (p := fun l2 => s.xl l2 b) hfind
  exact ⟨l, List.mem_range.mp hl1, hl2, hit.symm⟩

theorem longInBlock_none {longItems : List Item} {s : CpSol} {b : Nat}
    (h : ∀ l < longItems.length, s.xl l b = false) :
    longInBlock longItems s b = none := by
  simp only [longInBlock, Option.map_eq_none']
  rw [List.find?_eq_none]
  intro l hl
  rw [h l (List.mem_range.mp hl)]
  simp

theorem longInBlock_isSome_exists {longItems : List Item} {s : CpSol} {b : Nat}
    (h : ∃ l < longItems.length, s.xl l b = true) :
    ∃ it, longInBlock longItems s b = some it := by
  cases hcase : longInBlock longItems s b with
  | some it => exact ⟨it, rfl⟩
  | none =>
      obtain ⟨l, hl, hxl⟩ := h
      simp only [longInBlock, Option.map_eq_none'] at hcase
      rw [List.find?_eq_none] at hcase
      have := hcase l (List.mem_range.mpr hl)
      rw [hxl] at this
      simp at this

/-- For a block with long_present = 0, the extracted items are the base
shorts then the repeats, and their total seconds are the CP capacity sum. -/
theorem nonlong_items_sum (shortItems : List Item) (s : CpSol) (b : Nat) :
    ((baseItemsIn shortItems s b ++ repeatItemsIn shortItems s b).map Item.duration_s).sum
      = rsum shortItems.length
          (fun i => shortDur shortItems i * (bNat (s.xs i b) + bNat (s.r i b))) := by
  rw [List.map_append, List.sum_append]
  rw [baseItemsIn, repeatItemsIn, List.map_map, List.map_map]
  have hbase : (((List.range shortItems.length).filter (fun i => s.xs i b)).map
      (Item.duration_s ∘ fun i => shortItems.getD i defaultItem)).sum
      = rsum shortItems.length (fun i => if s.xs i b then shortDur shortItems i else 0) :=
    range_filter_map_sum _ _ _
  have hreps : (((List.range shortItems.length).filter (fun i => s.r i b)).map
      (Item.duration_s ∘ fun i => shortItems.getD i defaultItem)).sum
      = rsum shortItems.length (fun i => if s.r i b then shortDur shortItems i else 0) :=
    range_filter_map_sum _ _ _
  rw [hbase, hreps, ← rsum_add]
  refine rsum_congr ?_
  intro i _
  cases hxs : s.xs i b <;> cases hr : s.r i b <;> simp [bNat] <;> omega

/-- Claim C1: every block of a solve result satisfies the per-block
invariants.  A long block (is_long) holds exactly one item, and that item's
duration reaches block_s (long items only exist when
longform_consumes_block is set, since the long/short partition tests the
flag); a non-long block's total seconds over base items plus repeats stay
within block_s + allow_short_overflow_s.  The hypotheses say the Phase-2
oracle answer satisfies the constraints the source posts on the CP model
and that the solve succeeded. -/
theorem c1_block_invariants (cfg : ChannelConfig) (oracle : CpOracle) (sol2 : CpSol)
    (res : SolveResult)
    (hp2 : oracle.phase2 = some sol2)
    (hfeas : p2Feasible (shortItemsOf cfg).length (longItemsOf cfg).length
      (ubTotalOf cfg) (shortDur (shortItemsOf cfg)) (ceilingOf cfg) sol2)
    (hok : solve_minimal_cycle cfg oracle = Except.ok res) :
    ∀ blk ∈ res.blocks,
      (blk.is_long = true →
        blk.items.length = 1 ∧ ∀ it ∈ blk.items, cfg.solver.block_s ≤ it.duration_s) ∧
      (blk.is_long = false →
        (blk.items.map Item.duration_s).sum ≤ ceilingOf cfg) := by
  intro blk hblk
  rw [solve_ok_blocks cfg oracle sol2 res hp2 hok] at hblk
  obtain ⟨b, hbmem, oi, rfl⟩ := extractBlocksGo_mem _ _ _ _ _ _ _ hblk
  have hbB : b < ubTotalOf cfg := (mem_usedBlocksList.mp hbmem).1
  obtain ⟨hxs1, hxl1, hxlle1, hlpdef, hlpxs, hxsy, hxly, hlpy, hpre, hlpr, hcapc⟩ := hfeas
  cases hcase : longInBlock (longItemsOf cfg) sol2 b with
  | some it =>
      obtain ⟨l, hl, hxl, rfl⟩ := longInBlock_some hcase
      have hlp : sol2.lp b = true := by
        by_contra hlpf
        have hlpf2 : sol2.lp b = false := by
          cases h2 : sol2.lp b
          · rfl
          · exact absurd h2 hlpf
        have h0 : bNat (sol2.lp b) = 0 := by rw [hlpf2]; rfl
        have := hlpdef b hbB
        rw [h0] at this
        exact rsum_ne_zero_of_mem l hl (by rw [hxl]; simp [bNat]) this.symm
      have hxs0 : ∀ i < (shortItemsOf cfg).length, sol2.xs i b = false :=
        rsum_bNat_all_false (hlpxs b hbB hlp)
      have hr0 : ∀ i < (shortItemsOf cfg).length, sol2.r i b = false :=
        fun i hi => hlpr b hbB i hi hlp
      have hbase : baseItemsIn (shortItemsOf cfg) sol2 b = [] := by
        rw [baseItemsIn, List.map_eq_nil_iff, List.filter_eq_nil_iff]
        intro i hi
        rw [hxs0 i (List.mem_range.mp hi)]
        simp
      have hreps : repeatItemsIn (shortItemsOf cfg) sol2 b = [] := by
        rw [repeatItemsIn, List.map_eq_nil_iff, List.filter_eq_nil_iff]
        intro i hi
        rw [hr0 i (List.mem_range.mp hi)]
        simp
      constructor
      · intro _
        constructor
        · simp [extractBlock, hcase, hbase, hreps]
        · intro it2 hit2
          simp only [extractBlock, hcase, hbase, hreps, Option.toList_some,
            List.append_nil, List.mem_singleton] at hit2
          subst hit2
          have hmem : (longItemsOf cfg).getD l defaultItem ∈ longItemsOf cfg := by
            rw [List.getD_eq_getElem _ _ hl]
            exact List.getElem_mem _
          have := List.mem_filter.mp hmem
          have hflag := this.2
          simp only [Bool.and_eq_true, decide_eq_true_eq] at hflag
          exact hflag.2
      · intro hfalse
        simp [extractBlock, hcase] at hfalse
  | none =>
      have hxlall : ∀ l < (longItemsOf cfg).length, sol2.xl l b = false := by
        intro l hl
        by_contra hxl
        have hxl2 : sol2.xl l b = true := by
          cases h2 : sol2.xl l b
          · exact absurd h2 hxl
          · rfl
        obtain ⟨it, hit⟩ := longInBlock_isSome_exists ⟨l, hl, hxl2⟩
        rw [hcase] at hit
        exact Option.noConfusion hit
      have hlp : sol2.lp b = false := by
        have h0 : rsum (longItemsOf cfg).length (fun l => bNat (sol2.xl l b)) = 0 :=
          rsum_eq_zero.mpr (fun l hl => by rw [hxlall l hl]; rfl)
        have := hlpdef b hbB
        rw [h0] at this
        cases h2 : sol2.lp b
        · rfl
        · rw [h2] at this; simp [bNat] at this
      constructor
      · intro htrue
        simp [extractBlock, hcase] at htrue
      · intro _
        have hsum := nonlong_items_sum (shortItemsOf cfg) sol2 b
        have hitems : (extractBlock (shortItemsOf cfg) (longItemsOf cfg) (ceilingOf cfg)
            sol2 oi b).items
            = baseItemsIn (shortItemsOf cfg) sol2 b ++ repeatItemsIn (shortItemsOf cfg) sol2 b := by
          simp [extractBlock, hcase]
        rw [hitems, hsum]
        exact hcapc b hbB hlp

/-- Concrete items for the solver witnesses. -/
def itemA : Item :=
  { defaultItem with path := "A", duration_s := 600, pool := "p", media_type := "other_video" }

def itemB : Item :=
  { defaultItem with path := "B", duration_s := 600, pool := "p", media_type := "other_video" }

def itemC : Item :=
  { defaultItem with path := "C", duration_s := 2700, pool := "p", media_type := "movie" }

/-- Concrete config for the solver witnesses: two ten-minute shorts and one
long 45-minute item against a 30-minute block. -/
def cfgW : ChannelConfig :=
  { solver := { block_s := 1800, longform_consumes_block := true,
                allow_short_overflow_s := 0, time_limit_sec := 60, seed := 42 },
    bumpers := { slots_per_break := 1, mixing_strategy := "round_robin",
                 pools := [("default",
                   { name := "default", weight := 1,
                     items := [{ path := "bump1", duration_s := 30, media_type := "other_video" }] })] },
    pools := [("p", { name := "p", default_type := "other_video", sequential := false,
                      default_repeatable := false, default_repeat_cost_s := 0,
                      default_max_extra_uses := 0, dominant_block_threshold_s := 1440,
                      dominant_block_penalty_s := 0 })],
    items := [itemA, itemB, itemC] }

/-- Concrete Phase-2 assignment for cfgW: shorts in block 0, the long item
in block 1, no repeats. -/
def solW : CpSol :=
  { y := fun b => decide (b < 2)
    xs := fun _ b => decide (b = 0)
    xl := fun _ b => decide (b = 1)
    lp := fun b => decide (b = 1)
    r := fun _ _ => false }

def oracleW : CpOracle := { phase1 := some solW, phase2 := some solW }

/-- The result solve_minimal_cycle produces for cfgW under oracleW. -/
def resW : SolveResult :=
  { target_block_s := 1800
    blocks :=
      [{ index := 0, items := [itemA, itemB], is_long := false, base_items_count := 2,
         repeat_items_count := 0, content_duration_s := 1200, waste_s := 600 },
       { index := 1, items := [itemC], is_long := true, base_items_count := 1,
         repeat_items_count := 0, content_duration_s := 2700, waste_s := 0 }]
    repeats_used := 0
    total_waste_s := 600
    seed := 42 }

/-- Concrete check of c1_block_invariants: the hypotheses hold for cfgW
with the assignment solW and the theorem yields the per-block bounds. -/
theorem c1_block_invariants_witness :
    (solve_minimal_cycle cfgW oracleW = Except.ok resW) ∧
    (p2Feasible (shortItemsOf cfgW).length (longItemsOf cfgW).length
      (ubTotalOf cfgW) (shortDur (shortItemsOf cfgW)) (ceilingOf cfgW) solW) ∧
    (∀ blk ∈ resW.blocks,
      (blk.is_long = true →
        blk.items.length = 1 ∧ ∀ it ∈ blk.items, cfgW.solver.block_s ≤ it.duration_s) ∧
      (blk.is_long = false →
        (blk.items.map Item.duration_s).sum ≤ ceilingOf cfgW)) :=
  ⟨by rfl, by decide,
   c1_block_invariants cfgW oracleW solW resW rfl (by decide) (by rfl)⟩

/-- Base and repeat item lists of a block, written as maps over index
lists. -/
theorem baseItemsIn_eq_map (shortItems : List Item) (s : CpSol) (b : Nat) :
    baseItemsIn shortItems s b
      = ((List.range shortItems.length).filter (fun i => s.xs i b)).map
          (fun i => shortItems.getD i defaultItem) := rfl

theorem repeatItemsIn_eq_map (shortItems : List Item) (s : CpSol) (b : Nat) :
    repeatItemsIn shortItems s b
      = ((List.range shortItems.length).filter (fun i => s.r i b)).map
          (fun i => shortItems.getD i defaultItem) := rfl

theorem range_filter_pairwise (n : Nat) (p : Nat → Bool) :
    ((List.range n).filter p).Pairwise (fun a b => a < b) :=
  List.Pairwise.filter p (List.pairwise_lt_range n)

theorem mem_range_filter {n : Nat} {p : Nat → Bool} {i : Nat} :
    i ∈ (List.range n).filter p ↔ i < n ∧ p i = true := by
  simp [List.mem_filter, List.mem_range]

/-- Claim C7: on a successful solve, the extraction enumerates exactly the
blocks with y[b] = 1 in ascending b, emits them with consecutive output
indices, and fills each non-long block with the base short items in
ascending short-item index followed by the repeated short items in
ascending short-item index, while a block holding a long item contains only
that long item. -/
theorem c7_extraction_enumeration (cfg : ChannelConfig) (oracle : CpOracle) (sol2 : CpSol)
    (res : SolveResult)
    (hp2 : oracle.phase2 = some sol2)
    (hfeas : p2Feasible (shortItemsOf cfg).length (longItemsOf cfg).length
      (ubTotalOf cfg) (shortDur (shortItemsOf cfg)) (ceilingOf cfg) sol2)
    (hok : solve_minimal_cycle cfg oracle = Except.ok res) :
    (∀ b, b ∈ usedBlocksList (ubTotalOf cfg) sol2
        ↔ b < ubTotalOf cfg ∧ sol2.y b = true) ∧
    (usedBlocksList (ubTotalOf cfg) sol2).Pairwise (fun a b => a < b) ∧
    res.blocks.length = (usedBlocksList (ubTotalOf cfg) sol2).length ∧
    (∀ k, k < (usedBlocksList (ubTotalOf cfg) sol2).length →
      (res.blocks.getD k defaultBlock).index = k ∧
      ((∀ l < (longItemsOf cfg).length,
          sol2.xl l ((usedBlocksList (ubTotalOf cfg) sol2).getD k 0) = false) →
        ∃ bi ri : List Nat,
          bi.Pairwise (fun a b => a < b) ∧
          ri.Pairwise (fun a b => a < b) ∧
          (∀ i, i ∈ bi ↔ i < (shortItemsOf cfg).length ∧
            sol2.xs i ((usedBlocksList (ubTotalOf cfg) sol2).getD k 0) = true) ∧
          (∀ i, i ∈ ri ↔ i < (shortItemsOf cfg).length ∧
            sol2.r i ((usedBlocksList (ubTotalOf cfg) sol2).getD k 0) = true) ∧
          (res.blocks.getD k defaultBlock).items
            = bi.map (fun i => (shortItemsOf cfg).getD i defaultItem)
              ++ ri.map (fun i => (shortItemsOf cfg).getD i defaultItem)) ∧
      ((∃ l, l < (longItemsOf cfg).length ∧
          sol2.xl l ((usedBlocksList (ubTotalOf cfg) sol2).getD k 0) = true) →
        ∃ l, l < (longItemsOf cfg).length ∧
          sol2.xl l ((usedBlocksList (ubTotalOf cfg) sol2).getD k 0) = true ∧
          (res.blocks.getD k defaultBlock).items
            = [(longItemsOf cfg).getD l defaultItem])) := by
  have hblocks := solve_ok_blocks cfg oracle sol2 res hp2 hok
  obtain ⟨hxs1, hxl1, hxlle1, hlpdef, hlpxs, hxsy, hxly, hlpy, hpre, hlpr, hcapc⟩ := hfeas
  refine ⟨fun b => mem_usedBlocksList, ?_, ?_, ?_⟩
  · exact range_filter_pairwise _ _
  · rw [hblocks]
    exact extractBlocksGo_length _ _ _ _ _ _
  · intro k hk
    have hgetD : res.blocks.getD k defaultBlock
        = extractBlock (shortItemsOf cfg) (longItemsOf cfg) (ceilingOf cfg) sol2 (0 + k)
            ((usedBlocksList (ubTotalOf cfg) sol2).getD k 0) := by
      rw [hblocks]
      exact extractBlocksGo_getD _ _ _ _ _ _ _ hk
    set b := (usedBlocksList (ubTotalOf cfg) sol2).getD k 0 with hbdef
    have hbmem : b ∈ usedBlocksList (ubTotalOf cfg) sol2 := by
      rw [hbdef, List.getD_eq_getElem _ _ hk]
      exact List.getElem_mem _
    have hbB : b < ubTotalOf cfg := (mem_usedBlocksList.mp hbmem).1
    refine ⟨?_, ?_, ?_⟩
    · rw [hgetD]
      simp [extractBlock]
    · intro hxlall
      have hcase : longInBlock (longItemsOf cfg) sol2 b = none := longInBlock_none hxlall
      refine ⟨(List.range (shortItemsOf cfg).length).filter (fun i => sol2.xs i b),
        (List.range (shortItemsOf cfg).length).filter (fun i => sol2.r i b),
        range_filter_pairwise _ _, range_filter_pairwise _ _,
        fun i => mem_range_filter, fun i => mem_range_filter, ?_⟩
      rw [hgetD]
      simp [extractBlock, hcase, baseItemsIn_eq_map, repeatItemsIn_eq_map]
    · intro hexists
      obtain ⟨l1, hl1, hxl1b⟩ := hexists
      obtain ⟨it, hit⟩ := longInBlock_isSome_exists ⟨l1, hl1, hxl1b⟩
      obtain ⟨l, hl, hxlb, hiteq⟩ := longInBlock_some hit
      have hlp : sol2.lp b = true := by
        by_contra hlpf
        have hlpf2 : sol2.lp b = false := by
          cases h2 : sol2.lp b
          · rfl
          · exact absurd h2 hlpf
        have h0 : bNat (sol2.lp b) = 0 := by rw [hlpf2]; rfl
        have := hlpdef b hbB
        rw [h0] at this
        exact rsum_ne_zero_of_mem l hl (by rw [hxlb]; simp [bNat]) this.symm
      have hbase : baseItemsIn (shortItemsOf cfg) sol2 b = [] := by
        rw [baseItemsIn, List.map_eq_nil_iff, List.filter_eq_nil_iff]
        intro i hi
        rw [rsum_bNat_all_false (hlpxs b hbB hlp) i (List.mem_range.mp hi)]
        simp
      have hreps : repeatItemsIn (shortItemsOf cfg) sol2 b = [] := by
        rw [repeatItemsIn, List.map_eq_nil_iff, List.filter_eq_nil_iff]
        intro i hi
        rw [hlpr b hbB i (List.mem_range.mp hi) hlp]
        simp
      refine ⟨l, hl, hxlb, ?_⟩
      rw [hgetD]
      simp [extractBlock, hit, hbase, hreps, hiteq]

/-- Concrete check of c7_extraction_enumeration on cfgW. -/
theorem c7_extraction_enumeration_witness :
    (solve_minimal_cycle cfgW oracleW = Except.ok resW) ∧
    (p2Feasible (shortItemsOf cfgW).length (longItemsOf cfgW).length
      (ubTotalOf cfgW) (shortDur (shortItemsOf cfgW)) (ceilingOf cfgW) solW) ∧
    resW.blocks.length = (usedBlocksList (ubTotalOf cfgW) solW).length ∧
    (usedBlocksList (ubTotalOf cfgW) solW).Pairwise (fun a b => a < b) :=
  ⟨by rfl, by decide,
   (c7_extraction_enumeration cfgW oracleW solW resW rfl (by decide) (by rfl)).2.2.1,
   (c7_extraction_enumeration cfgW oracleW solW resW rfl (by decide) (by rfl)).2.1⟩

/-- Concrete check of c5_no_content_error with no hypotheses needing
discharge: an empty-config solve is exactly the no-content error. -/
theorem c5_no_content_error_witness :
    solve_minimal_cycle
      { solver := { block_s := 1800, longform_consumes_block := true,
                    allow_short_overflow_s := 0, time_limit_sec := 60, seed := 42 },
        bumpers := { slots_per_break := 1, mixing_strategy := "round_robin", pools := [] },
        pools := [], items := [] }
      { phase1 := none, phase2 := none }
      = Except.error Err.noContent :=
  ((c5_no_content_error _ _).1).mpr (by decide)

/-! ## Bumper selector (bumpers.py) -/

/-- State of one _ExhaustShuffleCycler: the immutable pool items and seed,
the current bag, the last returned path (kept across refills), and how many
refills have happened so far (the position of the owned PRNG in its shuffle
stream). -/
structure CyclerState where
  items : List BumperItem
  seed : Nat
  bag : List BumperItem
  lastPath : Option String
  refills : Nat
deriving Repr

/-- The random.Random(seed).shuffle calls of a cycler, abstracted as a
stream: argument order is the PRNG seed, the index of the shuffle in that
PRNG's life, and the list being shuffled.  Theorems that need it assume
every stream element is a permutation of its input, which is what a
shuffle produces. -/
abbrev ShuffleFn := Nat → Nat → List BumperItem → List BumperItem

/-- Cycler construction (the dataclass post-init): empty bag, no last
path. -/
def initCycler (items : List BumperItem) (seed : Nat) : CyclerState :=
  { items := items, seed := seed, bag := [], lastPath := none, refills := 0 }

/-- The boundary guard inside _refill (bumpers.py lines 32-33): if the
fresh shuffle starts with the previously returned path and has at least two
elements, rotate it left by one (bag[1:] + bag[:1]). -/
def refillGuard (lastPath : Option String) (bag : List BumperItem) : List BumperItem :=
  match lastPath with
  | none => bag
  | some lp =>
      if 1 < bag.length ∧ (bag.headD defaultBumper).path = lp
      then bag.drop 1 ++ bag.take 1 else bag

/-- Translation of _ExhaustShuffleCycler._refill. -/
def cyclerRefill (shuffle : ShuffleFn) (c : CyclerState) : CyclerState :=
  { c with bag := refillGuard c.lastPath (shuffle c.seed c.refills c.items),
           refills := c.refills + 1 }

/-- Translation of _ExhaustShuffleCycler.next: refill when the bag is
empty, then pop from the front and remember the path.  The empty-bag
fallback after a refill can only trigger for an empty pool, which the
constructor rejects; theorems assume a permuting shuffle on a non-empty
pool, which makes it unreachable. -/
def cyclerNext (shuffle : ShuffleFn) (c : CyclerState) : BumperItem × CyclerState :=
  let c1 := if c.bag.isEmpty then cyclerRefill shuffle c else c
  match c1.bag with
  | [] => (defaultBumper, c1)
  | it :: rest => (it, { c1 with bag := rest, lastPath := some it.path })

/-- n successive draws from a cycler, with the final state. -/
def cyclerRun (shuffle : ShuffleFn) : Nat → CyclerState → List BumperItem × CyclerState
  | 0, c => ([], c)
  | n + 1, c =>
      ((cyclerNext shuffle c).1
          :: (cyclerRun shuffle n (cyclerNext shuffle c).2).1,
       (cyclerRun shuffle n (cyclerNext shuffle c).2).2)

/-- Last path of a fully drained bag. -/
def lastPathOf (bag : List BumperItem) : Option String :=
  bag.getLast?.map BumperItem.path

/-- The successive bags a cycler drains, as determined by the shuffle
stream and the carried-over last path. -/
def bagSeq (shuffle : ShuffleFn) (seed : Nat) (items : List BumperItem) :
    Nat → List BumperItem
  | 0 => refillGuard none (shuffle seed 0 items)
  | k + 1 => refillGuard (lastPathOf (bagSeq shuffle seed items k))
      (shuffle seed (k + 1) items)

/-- Last path carried into the k-th refill. -/
def lpBefore (shuffle : ShuffleFn) (seed : Nat) (items : List BumperItem) :
    Nat → Option String
  | 0 => none
  | k + 1 => lastPathOf (bagSeq shuffle seed items k)

theorem bagSeq_eq_guard (shuffle : ShuffleFn) (seed : Nat) (items : List BumperItem)
    (k : Nat) :
    bagSeq shuffle seed items k
      = refillGuard (lpBefore shuffle seed items k) (shuffle seed k items) := by
  cases k <;> rfl

theorem refillGuard_perm (lastPath : Option String) (bag : List BumperItem) :
    (refillGuard lastPath bag).Perm bag := by
  cases lastPath with
  | none => exact List.Perm.refl _
  | some lp =>
      show (if 1 < bag.length ∧ (bag.headD defaultBumper).path = lp
            then bag.drop 1 ++ bag.take 1 else bag).Perm bag
      by_cases h : 1 < bag.length ∧ (bag.headD defaultBumper).path = lp
      · rw [if_pos h]
        exact List.perm_append_comm.trans
          (List.Perm.of_eq (List.take_append_drop 1 bag))
      · rw [if_neg h]

theorem bagSeq_perm (shuffle : ShuffleFn) (seed : Nat) (items : List BumperItem)
    (hperm : ∀ k, (shuffle seed k items).Perm items) (k : Nat) :
    (bagSeq shuffle seed items k).Perm items := by
  rw [bagSeq_eq_guard]
  exact (refillGuard_perm _ _).trans (hperm k)

/-- Popping from a non-empty bag. -/
theorem cyclerNext_cons (shuffle : ShuffleFn) (items : List BumperItem) (seed : Nat)
    (a : BumperItem) (l : List BumperItem) (lp : Option String) (rf : Nat) :
    cyclerNext shuffle ⟨items, seed, a :: l, lp, rf⟩
      = (a, ⟨items, seed, l, some a.path, rf⟩) := rfl

/-- Draining a non-empty bag yields exactly its elements and leaves the
last element's path behind. -/
theorem cyclerRun_drain (shuffle : ShuffleFn) (items : List BumperItem) (seed : Nat) :
    ∀ (l : List BumperItem) (a : BumperItem) (lp : Option String) (rf : Nat),
    cyclerRun shuffle (a :: l).length ⟨items, seed, a :: l, lp, rf⟩
      = (a :: l, ⟨items, seed, [], lastPathOf (a :: l), rf⟩) := by
  intro l
  induction l with
  | nil =>
      intro a lp rf
      simp [cyclerRun, cyclerNext_cons, lastPathOf]
  | cons b l2 ih =>
      intro a lp rf
      have hlen : (a :: b :: l2).length = (b :: l2).length + 1 := rfl
      rw [hlen, cyclerRun]
      rw [cyclerNext_cons]
      simp only
      rw [ih b (some a.path) rf]
      simp [lastPathOf]

/-- A full bag cycle from an empty-bag state: refill of the guarded
shuffle, then a drain. -/
theorem cyclerRun_cycle (shuffle : ShuffleFn) (items : List BumperItem) (seed : Nat)
    (lp : Option String) (rf : Nat) (a : BumperItem) (l : List BumperItem)
    (hbag : refillGuard lp (shuffle seed rf items) = a :: l) :
    cyclerRun shuffle (a :: l).length ⟨items, seed, [], lp, rf⟩
      = (a :: l, ⟨items, seed, [], lastPathOf (a :: l), rf + 1⟩) := by
  have hlen : (a :: l).length = l.length + 1 := rfl
  have hnext : cyclerNext shuffle ⟨items, seed, [], lp, rf⟩
      = (a, ⟨items, seed, l, some a.path, rf + 1⟩) := by
    simp only [cyclerNext, cyclerRefill, List.isEmpty_nil, if_true]
    simp only [hbag]
  rw [hlen, cyclerRun, hnext]
  cases l with
  | nil => simp [cyclerRun, lastPathOf]
  | cons b l2 =>
      simp only
      rw [cyclerRun_drain shuffle items seed l2 b (some a.path) (rf + 1)]
      simp [lastPathOf]

theorem cyclerRun_add (shuffle : ShuffleFn) (m n : Nat) :
    ∀ c : CyclerState,
    cyclerRun shuffle (m + n) c
      = ((cyclerRun shuffle m c).1 ++ (cyclerRun shuffle n (cyclerRun shuffle m c).2).1,
         (cyclerRun shuffle n (cyclerRun shuffle m c).2).2) := by
  induction m with
  | zero => intro c; simp [cyclerRun]
  | succ m2 ih =>
      intro c
      have : m2 + 1 + n = (m2 + n) + 1 := by omega
      rw [this, cyclerRun, cyclerRun, ih]
      simp

/-- The first n * M draws of a cycler are exactly the first n bags,
concatenated, and the state returns to an empty bag with the refill counter
advanced by n. -/
theorem cyclerRun_windows (shuffle : ShuffleFn) (items : List BumperItem) (seed : Nat)
    (hne : items ≠ []) (hperm : ∀ k, (shuffle seed k items).Perm items) :
    ∀ n : Nat,
    cyclerRun shuffle (n * items.length) (initCycler items seed)
      = (((List.range n).map (bagSeq shuffle seed items)).flatten,
         ⟨items, seed, [], lpBefore shuffle seed items n, n⟩) := by
  intro n
  induction n with
  | zero => simp [cyclerRun, initCycler, lpBefore]
  | succ n2 ih =>
      have hsplit : (n2 + 1) * items.length = n2 * items.length + items.length := by ring
      rw [hsplit, cyclerRun_add, ih]
      have hbag := bagSeq_eq_guard shuffle seed items n2
      have hbagperm := bagSeq_perm shuffle seed items hperm n2
      have hbaglen : (bagSeq shuffle seed items n2).length = items.length :=
        hbagperm.length_eq
      cases hb : bagSeq shuffle seed items n2 with
      | nil =>
          rw [hb] at hbaglen
          exact absurd (List.length_eq_zero.mp hbaglen.symm) hne
      | cons a l =>
          have hguard : refillGuard (lpBefore shuffle seed items n2)
              (shuffle seed n2 items) = a :: l := by rw [← hbag, hb]
          have hlen2 : items.length = (a :: l).length := by rw [← hbaglen, hb]
          rw [hlen2, cyclerRun_cycle shuffle items seed _ n2 a l hguard]
          simp only [Prod.mk.injEq]
          constructor
          · rw [List.range_succ, List.map_append, List.flatten_append]
            simp [hb]
          · simp only [lpBefore, hb, lastPathOf]

theorem nodup_paths_of_perm {l1 l2 : List BumperItem}
    (h : l1.Perm l2) (hnd : (l2.map BumperItem.path).Nodup) :
    (l1.map BumperItem.path).Nodup :=
  ((h.map BumperItem.path).nodup_iff).mpr hnd

/-- Claim C8: for every pool, the exhaust-shuffle cycler emits each pool
item exactly once per bag cycle (the first n * M draws split into n
aligned windows, each a permutation of the pool), and with at least two
items the last draw of one bag never shares its path with the first draw
of the next bag, thanks to the rotate-on-collision guard. -/
theorem c8_exhaust_shuffle_cycles (shuffle : ShuffleFn) (items : List BumperItem)
    (seed : Nat) (hne : items ≠ [])
    (hperm : ∀ k, (shuffle seed k items).Perm items)
    (hnodup : (items.map BumperItem.path).Nodup) :
    (∀ n : Nat, (cyclerRun shuffle (n * items.length) (initCycler items seed)).1
      = ((List.range n).map (bagSeq shuffle seed items)).flatten) ∧
    (∀ k : Nat, (bagSeq shuffle seed items k).Perm items) ∧
    (2 ≤ items.length → ∀ k : Nat, ∀ x y : BumperItem,
      (bagSeq shuffle seed items k).getLast? = some x →
      (bagSeq shuffle seed items (k + 1)).head? = some y →
      x.path ≠ y.path) := by
  refine ⟨?_, bagSeq_perm shuffle seed items hperm, ?_⟩
  · intro n
    rw [cyclerRun_windows shuffle items seed hne hperm n]
  · intro hM k x y hx hy
    have hbag := bagSeq_eq_guard shuffle seed items (k + 1)
    have hlp : lpBefore shuffle seed items (k + 1) = some x.path := by
      simp [lpBefore, lastPathOf, hx]
    rw [hlp] at hbag
    have hperm0 : (shuffle seed (k + 1) items).Perm items := hperm (k + 1)
    have hnd0 : ((shuffle seed (k + 1) items).map BumperItem.path).Nodup :=
      nodup_paths_of_perm hperm0 hnodup
    have hlen0 : (shuffle seed (k + 1) items).length = items.length := hperm0.length_eq
    cases hb0 : shuffle seed (k + 1) items with
    | nil =>
        rw [hb0] at hlen0
        have : items.length = 0 := hlen0.symm
        omega
    | cons p0 rest =>
        cases rest with
        | nil =>
            rw [hb0] at hlen0
            simp at hlen0
            omega
        | cons p1 rest2 =>
            rw [hb0] at hbag hnd0
            by_cases hcol : 1 < (p0 :: p1 :: rest2).length
                ∧ ((p0 :: p1 :: rest2).headD defaultBumper).path = x.path
            · rw [refillGuard, if_pos hcol] at hbag
              simp only [List.drop_succ_cons, List.drop_zero, List.take_succ_cons,
                List.take_zero] at hbag
              rw [bagSeq_eq_guard] at hy
              rw [hlp, hb0, refillGuard, if_pos hcol] at hy
              simp only [List.drop_succ_cons, List.drop_zero, List.take_succ_cons,
                List.take_zero, List.head?_append, List.head?_cons] at hy
              have hy2 : y = p1 := by
                cases rest2 <;> simp_all
              have hx2 : x.path = p0.path := by
                simpa using hcol.2.symm
              rw [hy2, hx2]
              intro hcontra
              simp only [List.map_cons, List.nodup_cons, List.mem_cons] at hnd0
              exact hnd0.1 (Or.inl hcontra)
            · rw [refillGuard, if_neg hcol] at hbag
              rw [bagSeq_eq_guard, hlp, hb0, refillGuard, if_neg hcol] at hy
              simp only [List.head?_cons, Option.some.injEq] at hy
              have : ¬((p0 :: p1 :: rest2).headD defaultBumper).path = x.path := by
                intro hcontra
                exact hcol ⟨by simp, hcontra⟩
              rw [← hy]
              intro hcontra
              exact this (by simpa using hcontra.symm)

/-- Three-bumper pool used by the concrete cycler scenarios. -/
def c2a : BumperItem := { path := "a", duration_s := 60, media_type := "other_video" }

def c2b : BumperItem := { path := "b", duration_s := 60, media_type := "other_video" }

def c2c : BumperItem := { path := "c", duration_s := 60, media_type := "other_video" }

def c2Pool : List BumperItem := [c2a, c2b, c2c]

/-- A legitimate shuffle behaviour (every outcome is a permutation of the
input): the first shuffle leaves the pool in order, every later shuffle
rotates it left once. -/
def c2Shuffle : ShuffleFn :=
  fun _ k items => if k = 0 then items else items.drop 1 ++ items.take 1

/-- Claim C2 is violated by the code: with pool {a, b, c} and a shuffle
stream producing [a, b, c] then [b, c, a] (both permutations, and the
boundary guard does not fire since b differs from the last-returned c), the
cycler emits a, b, c, b, c, a: path b recurs at pool-occurrence indices 1
and 3, a gap of 2 < M = 3.  Only the immediate-repeat case is prevented;
the verifier's exhaust-before-repeat check (gap at least M) reports this
as an ERROR, so generated playlists can fail the repository's own
verification. -/
theorem c2_exhaust_before_repeat_codebug :
    (∀ k, (c2Shuffle 0 k c2Pool).Perm c2Pool) ∧
    (∀ x ∈ (cyclerRun c2Shuffle 6 (initCycler c2Pool 0)).1, x ∈ c2Pool) ∧
    ((cyclerRun c2Shuffle 6 (initCycler c2Pool 0)).1.getD 1 defaultBumper).path
      = ((cyclerRun c2Shuffle 6 (initCycler c2Pool 0)).1.getD 3 defaultBumper).path ∧
    3 - 1 < c2Pool.length := by
  refine ⟨?_, by decide, by decide, by decide⟩
  intro k
  cases k with
  | zero => decide
  | succ m =>
      simp only [c2Shuffle, Nat.succ_ne_zero, if_false]
      decide

/-- The identity shuffle stream, used to instantiate the cycler theorems
concretely. -/
def c8Shuffle : ShuffleFn := fun _ _ items => items

/-- Concrete check of c8_exhaust_shuffle_cycles. -/
theorem c8_exhaust_shuffle_cycles_witness :
    c2Pool ≠ [] ∧ (c2Pool.map BumperItem.path).Nodup ∧
    ((cyclerRun c8Shuffle (2 * c2Pool.length) (initCycler c2Pool 7)).1
      = ((List.range 2).map (bagSeq c8Shuffle 7 c2Pool)).flatten) ∧
    (bagSeq c8Shuffle 7 c2Pool 0).Perm c2Pool :=
  ⟨by decide, by decide,
   (c8_exhaust_shuffle_cycles c8Shuffle c2Pool 7 (by decide)
     (fun _ => List.Perm.refl _) (by decide)).1 2,
   (c8_exhaust_shuffle_cycles c8Shuffle c2Pool 7 (by decide)
     (fun _ => List.Perm.refl _) (by decide)).2.1 0⟩

/-! ## Selector state machine (bumpers.py, BumperSelector) and the
assembler (generate.py, solve_to_yaml_obj) -/

/-- Python's builtin str hash, randomized per process unless
PYTHONHASHSEED is pinned; modelled as an environment parameter.  Results
are arbitrary Python ints, hence Int. -/
abbrev HashFn := String → Int

/-- The weighted PRNG pool choice (random.Random.choices), abstracted as a
stream of index choices; the index is taken modulo the number of pools so
any oracle value selects an actual pool name, as choices always does. -/
abbrev WChoiceFn := Nat → Nat

/-- State of a BumperSelector: pool names in declaration order, the
round-robin index, the number of weighted draws consumed, and the per-pool
cyclers in declaration order. -/
structure SelectorState where
  poolNames : List String
  rrIndex : Nat
  wDraws : Nat
  cyclers : List (String × CyclerState)

/-- Per-pool cycler seed (bumpers.py line 69):
solver.seed XOR (hash(pool_name) & 0xFFFFFFFF).  Masking a Python int with
0xFFFFFFFF is reduction modulo 2^32. -/
def poolSeed (seed : Nat) (h : HashFn) (name : String) : Nat :=
  seed ^^^ ((h name).emod 4294967296).toNat

/-- Translation of BumperSelector.__post_init__: the two ValueError guards
(slots_per_break <= 0, which for a Nat field is = 0, and empty pools), then
one cycler per pool, also raising if any pool's item list is empty (the
cycler constructor's guard). -/
def initSelector (bc : BumpersConfig) (seed : Nat) (h : HashFn) :
    Except Err SelectorState :=
  if bc.slots_per_break = 0 then Except.error Err.valueError
  else if bc.pools.isEmpty then Except.error Err.valueError
  else if bc.pools.any (fun p => p.2.items.isEmpty) then Except.error Err.valueError
  else Except.ok
    { poolNames := bc.pools.map Prod.fst
      rrIndex := 0
      wDraws := 0
      cyclers := bc.pools.map
        (fun p => (p.1, initCycler p.2.items (poolSeed seed h p.1))) }

/-- Round-robin choice: pool names cycled in declaration order, advancing
the internal index. -/
def rrChoose (st : SelectorState) : String × SelectorState :=
  (st.poolNames.getD (st.rrIndex % st.poolNames.length) "",
   { st with rrIndex := st.rrIndex + 1 })

/-- Translation of BumperSelector._choose_pool_name: round_robin cycles,
weighted draws a pool via the choice oracle unless every weight is
non-positive (the max(w, 0.0) sum is then zero) in which case it falls
back to round-robin; any other strategy string raises ValueError. -/
def choosePoolName (bc : BumpersConfig) (wchoice : WChoiceFn) (st : SelectorState) :
    Except Err (String × SelectorState) :=
  if bc.mixing_strategy = "round_robin" then Except.ok (rrChoose st)
  else if bc.mixing_strategy = "weighted" then
    if bc.pools.all (fun p => p.2.weight ≤ 0) then Except.ok (rrChoose st)
    else Except.ok
      ((bc.pools.map Prod.fst).getD
          (wchoice st.wDraws % (bc.pools.map Prod.fst).length) "",
       { st with wDraws := st.wDraws + 1 })
  else Except.error Err.valueError

/-- Draw from the named pool's cycler inside the selector's cycler table,
returning the item and the updated table. -/
def updateCycler (shuffle : ShuffleFn) (name : String) :
    List (String × CyclerState) → BumperItem × List (String × CyclerState)
  | [] => (defaultBumper, [])
  | (n, c) :: rest =>
      if n = name then
        ((cyclerNext shuffle c).1, (n, (cyclerNext shuffle c).2) :: rest)
      else
        ((updateCycler shuffle name rest).1, (n, c) :: (updateCycler shuffle name rest).2)

/-- The slot loop of BumperSelector.next_bumpers. -/
def nextBumpersGo (bc : BumpersConfig) (shuffle : ShuffleFn) (wchoice : WChoiceFn) :
    Nat → SelectorState → Except Err (List BumperItem × SelectorState)
  | 0, st => Except.ok ([], st)
  | n + 1, st =>
      match choosePoolName bc wchoice st with
      | Except.error e => Except.error e
      | Except.ok (name, st2) =>
          match nextBumpersGo bc shuffle wchoice n
              { st2 with cyclers := (updateCycler shuffle name st2.cyclers).2 } with
          | Except.error e => Except.error e
          | Except.ok (rest, st3) =>
              Except.ok ((updateCycler shuffle name st2.cyclers).1 :: rest, st3)

/-- Translation of BumperSelector.next_bumpers: slots_per_break draws. -/
def nextBumpers (bc : BumpersConfig) (shuffle : ShuffleFn) (wchoice : WChoiceFn)
    (st : SelectorState) : Except Err (List BumperItem × SelectorState) :=
  nextBumpersGo bc shuffle wchoice bc.slots_per_break st

/-- Translation of yaml_out.PlaylistEntry; include_in_guide defaults to
True exactly as the dataclass does. -/
structure PlaylistEntry where
  path : String
  media_type : String
  include_in_guide : Bool := true
deriving DecidableEq, Repr

def defaultEntry : PlaylistEntry := { path := "", media_type := "" }

/-- The assembly loop of solve_to_yaml_obj (generate.py lines 77-81): for
each block, one break of bumpers, then the block's items; both sides are
wrapped as PlaylistEntry with the defaulted include_in_guide. -/
def assembleGo (cfg : ChannelConfig) (shuffle : ShuffleFn) (wchoice : WChoiceFn) :
    List SolvedBlock → SelectorState → Except Err (List PlaylistEntry)
  | [], _ => Except.ok []
  | blk :: rest, st =>
      match nextBumpers cfg.bumpers shuffle wchoice st with
      | Except.error e => Except.error e
      | Except.ok (bumps, st2) =>
          match assembleGo cfg shuffle wchoice rest st2 with
          | Except.error e => Except.error e
          | Except.ok tail =>
              Except.ok
                (bumps.map (fun b => { path := b.path, media_type := b.media_type })
                  ++ blk.items.map (fun it => { path := it.path, media_type := it.media_type })
                  ++ tail)

/-- Translation of generate.solve_to_yaml_obj without CLI overrides (all
override parameters default to None, making _apply_solver_overrides the
identity): the auto-seed guard, the solve, selector construction from the
result seed, and the assembly loop. -/
def solve_to_yaml_obj (cfg : ChannelConfig) (oracle : CpOracle) (h : HashFn)
    (shuffle : ShuffleFn) (wchoice : WChoiceFn) :
    Except Err (List PlaylistEntry × SolveResult) :=
  if cfg.solver.seed = 0 then Except.error Err.seedZeroAuto
  else
    match solve_minimal_cycle cfg oracle with
    | Except.error e => Except.error e
    | Except.ok result =>
        match initSelector cfg.bumpers result.seed h with
        | Except.error e => Except.error e
        | Except.ok st0 =>
            match assembleGo cfg shuffle wchoice result.blocks st0 with
            | Except.error e => Except.error e
            | Except.ok entries => Except.ok (entries, result)

/-- One playlist item of the emitted YAML object (yaml_out.py lines
38-45). -/
structure YamlPlaylistItem where
  path : String
  type : String
  include_in_guide : Bool
deriving DecidableEq, Repr

/-- Translation of the playlist.items construction in
yaml_out.build_yaml_config. -/
def buildYamlPlaylistItems (entries : List PlaylistEntry) : List YamlPlaylistItem :=
  entries.map (fun e =>
    { path := e.path, type := e.media_type, include_in_guide := e.include_in_guide })

/-! ### Claim C6: include_in_guide handling -/

theorem assembleGo_guide (cfg : ChannelConfig) (shuffle : ShuffleFn) (wchoice : WChoiceFn) :
    ∀ (blocks : List SolvedBlock) (st : SelectorState) (entries : List PlaylistEntry),
    assembleGo cfg shuffle wchoice blocks st = Except.ok entries →
    ∀ e ∈ entries, e.include_in_guide = true := by
  intro blocks
  induction blocks with
  | nil =>
      intro st entries h e he
      simp only [assembleGo, Except.ok.injEq] at h
      rw [← h] at he
      simp at he
  | cons blk rest ih =>
      intro st entries h e he
      simp only [assembleGo] at h
      cases hb : nextBumpers cfg.bumpers shuffle wchoice st with
      | error er => rw [hb] at h; simp at h
      | ok pr =>
          obtain ⟨bumps, st2⟩ := pr
          rw [hb] at h
          dsimp only at h
          cases ht : assembleGo cfg shuffle wchoice rest st2 with
          | error er => rw [ht] at h; simp at h
          | ok tail =>
              rw [ht] at h
              simp only [Except.ok.injEq] at h
              rw [← h] at he
              simp only [List.mem_append, List.mem_map] at he
              rcases he with (⟨b, _, hb2⟩ | ⟨it, _, hb2⟩) | he
              · rw [← hb2]
              · rw [← hb2]
              · exact ih st2 tail ht e he

/-- Claim C6 as amended: the assembler marks every playlist entry, repeats
included, with include_in_guide = true (the PlaylistEntry default is never
overridden on this code path), and the YAML serialization preserves the
path and include_in_guide of every entry bit-exact. -/
theorem c6_include_in_guide_amended (cfg : ChannelConfig) (oracle : CpOracle)
    (h : HashFn) (shuffle : ShuffleFn) (wchoice : WChoiceFn)
    (entries : List PlaylistEntry) (result : SolveResult)
    (hok : solve_to_yaml_obj cfg oracle h shuffle wchoice = Except.ok (entries, result)) :
    (∀ e ∈ entries, e.include_in_guide = true) ∧
    (buildYamlPlaylistItems entries).map YamlPlaylistItem.include_in_guide
      = entries.map PlaylistEntry.include_in_guide ∧
    (buildYamlPlaylistItems entries).map YamlPlaylistItem.path
      = entries.map PlaylistEntry.path := by
  refine ⟨?_, ?_, ?_⟩
  · rw [solve_to_yaml_obj] at hok
    by_cases hz : cfg.solver.seed = 0
    · rw [if_pos hz] at hok; simp at hok
    · rw [if_neg hz] at hok
      cases hs : solve_minimal_cycle cfg oracle with
      | error er => rw [hs] at hok; simp at hok
      | ok result2 =>
          rw [hs] at hok
          dsimp only at hok
          cases hi : initSelector cfg.bumpers result2.seed h with
          | error er => rw [hi] at hok; simp at hok
          | ok st0 =>
              rw [hi] at hok
              dsimp only at hok
              cases ha : assembleGo cfg shuffle wchoice result2.blocks st0 with
              | error er => rw [ha] at hok; simp at hok
              | ok entries2 =>
                  rw [ha] at hok
                  simp only [Except.ok.injEq, Prod.mk.injEq] at hok
                  rw [← hok.1]
                  exact assembleGo_guide cfg shuffle wchoice result2.blocks st0 entries2 ha
  · simp [buildYamlPlaylistItems]
  · simp [buildYamlPlaylistItems]

/-- Concrete repeat scenario: one 20-minute repeatable item in a 45-minute
block, one single-bumper pool. -/
def itemA6 : Item :=
  { defaultItem with
    path := "A", duration_s := 1200, pool := "p",
    media_type := "other_video", repeatable := true, max_extra_uses := 1 }

def bump1 : BumperItem := { path := "bump1", duration_s := 30, media_type := "other_video" }

def cfg6 : ChannelConfig :=
  { solver := { block_s := 2700, longform_consumes_block := true,
                allow_short_overflow_s := 0, time_limit_sec := 60, seed := 7 },
    bumpers := { slots_per_break := 1, mixing_strategy := "round_robin",
                 pools := [("default", { name := "default", weight := 1, items := [bump1] })] },
    pools := [("p", { name := "p", default_type := "other_video", sequential := false,
                      default_repeatable := true, default_repeat_cost_s := 0,
                      default_max_extra_uses := 1, dominant_block_threshold_s := 1440,
                      dominant_block_penalty_s := 0 })],
    items := [itemA6] }

def sol6 : CpSol :=
  { y := fun b => decide (b = 0)
    xs := fun _ b => decide (b = 0)
    xl := fun _ _ => false
    lp := fun _ => false
    r := fun _ b => decide (b = 0) }

def oracle6 : CpOracle := { phase1 := some sol6, phase2 := some sol6 }

def res6 : SolveResult :=
  { target_block_s := 2700
    blocks :=
      [{ index := 0, items := [itemA6, itemA6], is_long := false, base_items_count := 1,
         repeat_items_count := 1, content_duration_s := 2400, waste_s := 300 }]
    repeats_used := 1
    total_waste_s := 300
    seed := 7 }

def c6Hash : HashFn := fun _ => 0

def c6W : WChoiceFn := fun _ => 0

def entries6 : List PlaylistEntry :=
  [{ path := "bump1", media_type := "other_video" },
   { path := "A", media_type := "other_video" },
   { path := "A", media_type := "other_video" }]

/-- Claim C6 is false of the code: in the assembled cycle for cfg6 the path
A appears at positions 1 and 2 (base placement plus filler repeat), and the
second appearance still carries include_in_guide = true, because the
assembler constructs every PlaylistEntry with the dataclass default instead
of marking repeats false. -/
theorem c6_include_in_guide_counterexample :
    solve_to_yaml_obj cfg6 oracle6 c6Hash c8Shuffle c6W = Except.ok (entries6, res6) ∧
    (entries6.getD 1 defaultEntry).path = (entries6.getD 2 defaultEntry).path ∧
    (entries6.getD 2 defaultEntry).include_in_guide = true :=
  ⟨by rfl, by rfl, by rfl⟩

/-- Concrete check of c6_include_in_guide_amended on the cfg6 scenario. -/
theorem c6_include_in_guide_amended_witness :
    solve_to_yaml_obj cfg6 oracle6 c6Hash c8Shuffle c6W = Except.ok (entries6, res6) ∧
    (∀ e ∈ entries6, e.include_in_guide = true) :=
  ⟨by rfl,
   (c6_include_in_guide_amended cfg6 oracle6 c6Hash c8Shuffle c6W entries6 res6 (by rfl)).1⟩

/-! ### Claim C3: determinism and the per-pool PRNG seed -/

theorem initSelector_congr (bc : BumpersConfig) (seed : Nat) (h1 h2 : HashFn)
    (hag : ∀ name ∈ bc.pools.map Prod.fst, h1 name = h2 name) :
    initSelector bc seed h1 = initSelector bc seed h2 := by
  rw [initSelector, initSelector]
  have hmap : bc.pools.map (fun p => (p.1, initCycler p.2.items (poolSeed seed h1 p.1)))
      = bc.pools.map (fun p => (p.1, initCycler p.2.items (poolSeed seed h2 p.1))) := by
    apply List.map_congr_left
    intro p hp
    have heq : h1 p.1 = h2 p.1 := hag p.1 (List.mem_map.mpr ⟨p, hp, rfl⟩)
    rw [poolSeed, poolSeed, heq]
  rw [hmap]

/-- Claim C3 as amended.  The embedded pipeline is a function, so two runs
with identical configuration, seed, CP answers, shuffle stream, weighted
choices and str-hash environment coincide; more precisely (first conjunct)
the output depends on the process str hash only through its values at the
bumper pool names.  The SolveResult (blocks included) never depends on the
hash, the shuffles or the weighted choices at all (second conjunct).  Each
per-pool bumper PRNG is seeded solver.seed XOR (hash(pool_name) &
0xFFFFFFFF) with Python's builtin hash (third conjunct), which is
process-randomized, not a stable function of the pool name - so separate
processes can legitimately disagree (see the counterexample). -/
theorem c3_determinism_amended :
    (∀ (cfg : ChannelConfig) (oracle : CpOracle) (h1 h2 : HashFn)
        (shuffle : ShuffleFn) (wchoice : WChoiceFn),
      (∀ name ∈ cfg.bumpers.pools.map Prod.fst, h1 name = h2 name) →
      solve_to_yaml_obj cfg oracle h1 shuffle wchoice
        = solve_to_yaml_obj cfg oracle h2 shuffle wchoice) ∧
    (∀ (cfg : ChannelConfig) (oracle : CpOracle) (h : HashFn) (shuffle : ShuffleFn)
        (wchoice : WChoiceFn) (entries : List PlaylistEntry) (result : SolveResult),
      solve_to_yaml_obj cfg oracle h shuffle wchoice = Except.ok (entries, result) →
      solve_minimal_cycle cfg oracle = Except.ok result) ∧
    (∀ (bc : BumpersConfig) (seed : Nat) (h : HashFn) (st : SelectorState),
      initSelector bc seed h = Except.ok st →
      st.cyclers = bc.pools.map
        (fun p => (p.1, initCycler p.2.items (seed ^^^ ((h p.1).emod 4294967296).toNat)))) := by
  refine ⟨?_, ?_, ?_⟩
  · intro cfg oracle h1 h2 shuffle wchoice hag
    rw [solve_to_yaml_obj, solve_to_yaml_obj]
    by_cases hz : cfg.solver.seed = 0
    · rw [if_pos hz, if_pos hz]
    · rw [if_neg hz, if_neg hz]
      cases hs : solve_minimal_cycle cfg oracle with
      | error e => rfl
      | ok result =>
          dsimp only
          rw [initSelector_congr cfg.bumpers result.seed h1 h2 hag]
  · intro cfg oracle h shuffle wchoice entries result hok
    rw [solve_to_yaml_obj] at hok
    by_cases hz : cfg.solver.seed = 0
    · rw [if_pos hz] at hok; simp at hok
    · rw [if_neg hz] at hok
      cases hs : solve_minimal_cycle cfg oracle with
      | error er => rw [hs] at hok; simp at hok
      | ok result2 =>
          rw [hs] at hok
          dsimp only at hok
          cases hi : initSelector cfg.bumpers result2.seed h with
          | error er => rw [hi] at hok; simp at hok
          | ok st0 =>
              rw [hi] at hok
              dsimp only at hok
              cases ha : assembleGo cfg shuffle wchoice result2.blocks st0 with
              | error er => rw [ha] at hok; simp at hok
              | ok entries2 =>
                  rw [ha] at hok
                  simp only [Except.ok.injEq, Prod.mk.injEq] at hok
                  rw [hok.2]
  · intro bc seed h st hinit
    rw [initSelector] at hinit
    by_cases h1 : bc.slots_per_break = 0
    · rw [if_pos h1] at hinit; simp at hinit
    · rw [if_neg h1] at hinit
      by_cases h2 : bc.pools.isEmpty
      · rw [if_pos h2] at hinit; simp at hinit
      · rw [if_neg h2] at hinit
        by_cases h3 : bc.pools.any (fun p => p.2.items.isEmpty)
        · rw [if_pos h3] at hinit; simp at hinit
        · rw [if_neg h3] at hinit
          simp only [Except.ok.injEq] at hinit
          rw [← hinit]
          rfl

/-- Two-bumper pool and a seed-sensitive (but always permuting) shuffle
stream for the determinism counterexample. -/
def c3i1 : BumperItem := { path := "i1", duration_s := 30, media_type := "other_video" }

def c3i2 : BumperItem := { path := "i2", duration_s := 30, media_type := "other_video" }

def itemA3 : Item :=
  { defaultItem with
    path := "A", duration_s := 600, pool := "p", media_type := "other_video" }

def cfg3 : ChannelConfig :=
  { solver := { block_s := 1800, longform_consumes_block := true,
                allow_short_overflow_s := 0, time_limit_sec := 60, seed := 2 },
    bumpers := { slots_per_break := 1, mixing_strategy := "round_robin",
                 pools := [("default",
                   { name := "default", weight := 1, items := [c3i1, c3i2] })] },
    pools := [("p", { name := "p", default_type := "other_video", sequential := false,
                      default_repeatable := false, default_repeat_cost_s := 0,
                      default_max_extra_uses := 0, dominant_block_threshold_s := 1440,
                      dominant_block_penalty_s := 0 })],
    items := [itemA3] }

def sol3 : CpSol :=
  { y := fun b => decide (b = 0)
    xs := fun _ b => decide (b = 0)
    xl := fun _ _ => false
    lp := fun _ => false
    r := fun _ _ => false }

def oracle3 : CpOracle := { phase1 := some sol3, phase2 := some sol3 }

def res3 : SolveResult :=
  { target_block_s := 1800
    blocks :=
      [{ index := 0, items := [itemA3], is_long := false, base_items_count := 1,
         repeat_items_count := 0, content_duration_s := 600, waste_s := 1200 }]
    repeats_used := 0
    total_waste_s := 1200
    seed := 2 }

def c3h1 : HashFn := fun _ => 0

def c3h2 : HashFn := fun _ => 1

/-- A hash environment agreeing with c3h1 on the pool name "default". -/
def c3h3 : HashFn := fun n => if n = "default" then 0 else 5

/-- A legitimate shuffle behaviour that depends on its PRNG seed: even
seeds leave the list alone, odd seeds reverse it.  Both outcomes are
permutations. -/
def c3Shuffle : ShuffleFn := fun s _ l => if s % 2 = 0 then l else l.reverse

def c3W : WChoiceFn := fun _ => 0

def entries3a : List PlaylistEntry :=
  [{ path := "i1", media_type := "other_video" },
   { path := "A", media_type := "other_video" }]

def entries3b : List PlaylistEntry :=
  [{ path := "i2", media_type := "other_video" },
   { path := "A", media_type := "other_video" }]

/-- Claim C3 is false of the code as stated: the per-pool PRNG seed mixes
in Python's builtin str hash, which is randomized per process, so it is
not a stable function of (solver.seed, pool_name).  Concretely, the same
config and seed run under two hash environments (h("default") = 0 in one
process, 1 in the other) produce different pool seeds (2 versus 3) and
hence different shuffle outcomes and different playlists, the shuffle
stream being a fixed, always-permuting function of the seed. -/
theorem c3_determinism_counterexample :
    solve_to_yaml_obj cfg3 oracle3 c3h1 c3Shuffle c3W = Except.ok (entries3a, res3) ∧
    solve_to_yaml_obj cfg3 oracle3 c3h2 c3Shuffle c3W = Except.ok (entries3b, res3) ∧
    entries3a ≠ entries3b ∧
    (∀ s k, (c3Shuffle s k [c3i1, c3i2]).Perm [c3i1, c3i2]) := by
  refine ⟨by rfl, by rfl, by decide, ?_⟩
  intro s k
  by_cases hp : s % 2 = 0
  · simp [c3Shuffle, hp]
  · simp only [c3Shuffle, hp, if_false]
    exact (List.reverse_perm _)

/-- Concrete check of c3_determinism_amended. -/
theorem c3_determinism_amended_witness :
    (∀ name ∈ cfg3.bumpers.pools.map Prod.fst, c3h1 name = c3h3 name) ∧
    solve_to_yaml_obj cfg3 oracle3 c3h1 c3Shuffle c3W
      = solve_to_yaml_obj cfg3 oracle3 c3h3 c3Shuffle c3W ∧
    solve_minimal_cycle cfg3 oracle3 = Except.ok res3 :=
  ⟨by decide,
   c3_determinism_amended.1 cfg3 oracle3 c3h1 c3h3 c3Shuffle c3W (by decide),
   c3_determinism_amended.2.1 cfg3 oracle3 c3h1 c3Shuffle c3W entries3a res3 (by rfl)⟩

/-! ## Run structure (verify.py lines 95-137 and the assembler) -/

/-- All bumper paths across pools, in declaration order (verify.py lines
57-62).  Membership in this list is the verifier's bumper_set test. -/
def bumperPathsOf (bc : BumpersConfig) : List String :=
  (bc.pools.map (fun p => p.2.items.map BumperItem.path)).flatten

/-- The verifier's is_bumper predicate (verify.py lines 103-104). -/
def isBumperPath (bc : BumpersConfig) (p : String) : Bool :=
  decide (p ∈ bumperPathsOf bc)

/-- The loop of verify.py lines 106-119 that groups the playlist into
maximal same-kind runs, tracking the current run's kind, accumulated
length, start index and the running index. -/
def runsLoop : List Bool → Bool → Nat → Nat → Nat → List (Bool × Nat × Nat)
  | [], cur, len, start, _ => [(cur, len, start)]
  | b :: rest, cur, len, start, idx =>
      if b = cur then runsLoop rest cur (len + 1) start (idx + 1)
      else (cur, len, start) :: runsLoop rest b 1 idx (idx + 1)

/-- Run decomposition of a flag sequence, initialized from the first
element exactly as the source does (the source only reaches this code for
non-empty playlists; the empty case is padded with []). -/
def computeRuns (flags : List Bool) : List (Bool × Nat × Nat) :=
  match flags with
  | [] => []
  | f :: _ => runsLoop flags f 0 0 0

theorem runsLoop_replicate (c : Bool) :
    ∀ (n : Nat) (rest : List Bool) (len start idx : Nat),
    runsLoop (List.replicate n c ++ rest) c len start idx
      = runsLoop rest c (len + n) start (idx + n) := by
  intro n
  induction n with
  | zero => intro rest len start idx; simp
  | succ m ih =>
      intro rest len start idx
      rw [List.replicate_succ, List.cons_append]
      simp only [runsLoop, eq_self_iff_true, if_true]
      rw [ih]
      have e1 : len + 1 + m = len + (m + 1) := by omega
      have e2 : idx + 1 + m = idx + (m + 1) := by omega
      rw [e1, e2]

/-- The flag block one playlist block contributes: a full break of
bumpers, then its content items. -/
def chunkFlags (s m : Nat) : List Bool :=
  List.replicate s true ++ List.replicate m false

/-- The runs the verifier should see for block sizes ms with break size
s. -/
def expectedRuns (s : Nat) : List Nat → Nat → List (Bool × Nat × Nat)
  | [], _ => []
  | m :: rest, idx =>
      (true, s, idx) :: (false, m, idx + s) :: expectedRuns s rest (idx + s + m)

theorem runsLoop_chunks_false (s : Nat) :
    ∀ (ms : List Nat), 1 ≤ s → (∀ m ∈ ms, 1 ≤ m) →
    ∀ (m0 len start idx : Nat),
    runsLoop (List.replicate m0 false ++ (ms.map (chunkFlags s)).flatten) false len start idx
      = (false, len + m0, start) :: expectedRuns s ms (idx + m0) := by
  intro ms
  induction ms with
  | nil =>
      intro _ _ m0 len start idx
      simp only [List.map_nil, List.flatten_nil]
      rw [runsLoop_replicate false m0 [] len start idx]
      simp [runsLoop, expectedRuns]
  | cons m1 rest ih =>
      intro hs hms m0 len start idx
      have hm1 : 1 ≤ m1 := hms m1 (List.mem_cons_self _ _)
      obtain ⟨s2, rfl⟩ : ∃ s2, s = s2 + 1 := ⟨s - 1, by omega⟩
      obtain ⟨m2, rfl⟩ : ∃ m2, m1 = m2 + 1 := ⟨m1 - 1, by omega⟩
      simp only [List.map_cons, List.flatten_cons, chunkFlags]
      rw [runsLoop_replicate false m0 _ len start idx]
      rw [List.replicate_succ (a := true), List.cons_append, List.cons_append,
        List.append_assoc]
      simp only [runsLoop, if_neg (by simp : ¬(true = false))]
      congr 1
      rw [runsLoop_replicate true s2 _ 1 (idx + m0) (idx + m0 + 1)]
      rw [List.replicate_succ (a := false), List.cons_append]
      simp only [runsLoop, if_neg (by simp : ¬(false = true))]
      have e1 : 1 + s2 = s2 + 1 := by omega
      rw [e1]
      congr 1
      rw [ih hs (fun m hm => hms m (List.mem_cons_of_mem _ hm)) m2 1
        (idx + m0 + 1 + s2) (idx + m0 + 1 + s2 + 1)]
      have e2 : 1 + m2 = m2 + 1 := by omega
      have e4 : idx + m0 + 1 + s2 + 1 + m2 = idx + m0 + (s2 + 1) + (m2 + 1) := by omega
      have e3 : idx + m0 + 1 + s2 = idx + m0 + (s2 + 1) := by omega
      rw [e2, e4, e3]

theorem computeRuns_chunks (s : Nat) (hs : 1 ≤ s) (ms : List Nat)
    (hms : ∀ m ∈ ms, 1 ≤ m) (hne : ms ≠ []) :
    computeRuns ((ms.map (chunkFlags s)).flatten) = expectedRuns s ms 0 := by
  obtain ⟨m1, rest, rfl⟩ : ∃ m1 rest, ms = m1 :: rest := by
    cases ms with
    | nil => exact absurd rfl hne
    | cons a b => exact ⟨a, b, rfl⟩
  have hm1 : 1 ≤ m1 := hms m1 (List.mem_cons_self _ _)
  obtain ⟨s2, rfl⟩ : ∃ s2, s = s2 + 1 := ⟨s - 1, by omega⟩
  obtain ⟨m2, rfl⟩ : ∃ m2, m1 = m2 + 1 := ⟨m1 - 1, by omega⟩
  simp only [List.map_cons, List.flatten_cons, chunkFlags]
  rw [List.replicate_succ (a := true), List.cons_append, List.cons_append,
    List.append_assoc]
  simp only [computeRuns]
  simp only [runsLoop, eq_self_iff_true, if_true]
  rw [runsLoop_replicate true s2 _ 1 0 1]
  rw [List.replicate_succ (a := false), List.cons_append]
  simp only [runsLoop, if_neg (by simp : ¬(false = true))]
  have e1 : 1 + s2 = s2 + 1 := by omega
  rw [e1]
  congr 1
  rw [runsLoop_chunks_false (s2 + 1) rest hs
    (fun m hm => hms m (List.mem_cons_of_mem _ hm)) m2 1 (s2 + 1) (s2 + 1 + 1)]
  simp only [Nat.zero_add]
  have e2 : 1 + m2 = m2 + 1 := by omega
  have e5 : s2 + 1 + 1 + m2 = s2 + 1 + (m2 + 1) := by omega
  rw [e2, e5]

theorem expectedRuns_ne_nil (s : Nat) (m : Nat) (rest : List Nat) (idx : Nat) :
    expectedRuns s (m :: rest) idx ≠ [] := by
  simp [expectedRuns]

theorem getLast?_cons_ne {α : Type} (a : α) (l : List α) (h : l ≠ []) :
    (a :: l).getLast? = l.getLast? := by
  cases l with
  | nil => exact absurd rfl h
  | cons b l2 => exact List.getLast?_cons_cons

theorem expectedRuns_getLast (s : Nat) :
    ∀ (ms : List Nat) (idx : Nat), ms ≠ [] →
    ∃ m st2, (expectedRuns s ms idx).getLast? = some (false, m, st2) ∧ m ∈ ms := by
  intro ms
  induction ms with
  | nil => intro idx h; exact absurd rfl h
  | cons m rest ih =>
      intro idx _
      cases hrest : rest with
      | nil =>
          subst hrest
          refine ⟨m, idx + s, ?_, List.mem_cons_self _ _⟩
          simp [expectedRuns]
      | cons m2 rest2 =>
          subst hrest
          obtain ⟨m3, st3, hlast, hmem⟩ := ih (idx + s + m) (by simp)
          refine ⟨m3, st3, ?_, List.mem_cons_of_mem _ hmem⟩
          show ((true, s, idx) :: (false, m, idx + s)
            :: expectedRuns s (m2 :: rest2) (idx + s + m)).getLast? = some (false, m3, st3)
          rw [getLast?_cons_ne _ _ (by simp [expectedRuns]),
            getLast?_cons_ne _ _ (expectedRuns_ne_nil _ _ _ _)]
          exact hlast

theorem expectedRuns_mem (s : Nat) :
    ∀ (ms : List Nat) (idx : Nat) (r : Bool × Nat × Nat), r ∈ expectedRuns s ms idx →
    (r.1 = true → r.2.1 = s) ∧ (r.1 = false → ∃ m ∈ ms, r.2.1 = m) := by
  intro ms
  induction ms with
  | nil => intro idx r hr; simp [expectedRuns] at hr
  | cons m rest ih =>
      intro idx r hr
      simp only [expectedRuns, List.mem_cons] at hr
      rcases hr with hr | hr | hr
      · subst hr
        exact ⟨fun _ => rfl, fun h => by simp at h⟩
      · subst hr
        exact ⟨fun h => by simp at h, fun _ => ⟨m, List.mem_cons_self _ _, rfl⟩⟩
      · obtain ⟨h1, h2⟩ := ih (idx + s + m) r hr
        exact ⟨h1, fun hf => by
          obtain ⟨m2, hm2, he⟩ := h2 hf
          exact ⟨m2, List.mem_cons_of_mem _ hm2, he⟩⟩

/-! ### Selector invariants for the run-structure proof -/

/-- Invariant maintained by the selector: pool names and cycler keys are
the configured pools in declaration order, and every cycler owns the item
list of one configured pool, keeps its bag inside that list, and that list
is non-empty. -/
def SelInv (bc : BumpersConfig) (st : SelectorState) : Prop :=
  st.poolNames = bc.pools.map Prod.fst ∧
  st.cyclers.map Prod.fst = bc.pools.map Prod.fst ∧
  ∀ nc ∈ st.cyclers, (∃ p ∈ bc.pools, nc.2.items = p.2.items) ∧
    (∀ x ∈ nc.2.bag, x ∈ nc.2.items) ∧ nc.2.items ≠ []

theorem initSelector_facts (bc : BumpersConfig) (seed : Nat) (h : HashFn)
    (st : SelectorState) (hinit : initSelector bc seed h = Except.ok st) :
    SelInv bc st ∧ bc.slots_per_break ≠ 0 ∧ bc.pools ≠ [] := by
  rw [initSelector] at hinit
  by_cases h1 : bc.slots_per_break = 0
  · rw [if_pos h1] at hinit; simp at hinit
  · rw [if_neg h1] at hinit
    by_cases h2 : bc.pools.isEmpty
    · rw [if_pos h2] at hinit; simp at hinit
    · rw [if_neg h2] at hinit
      by_cases h3 : bc.pools.any (fun p => p.2.items.isEmpty)
      · rw [if_pos h3] at hinit; simp at hinit
      · rw [if_neg h3] at hinit
        simp only [Except.ok.injEq] at hinit
        subst hinit
        refine ⟨⟨rfl, by simp, ?_⟩, h1, by simpa using h2⟩
        intro nc hnc
        simp only [List.mem_map] at hnc
        obtain ⟨p, hp, rfl⟩ := hnc
        refine ⟨⟨p, hp, rfl⟩, by simp [initCycler], ?_⟩
        simp only [List.any_eq_true, not_exists, not_and] at h3
        intro hemp
        have := h3 p hp
        rw [List.isEmpty_iff] at this
        exact this (by simpa [initCycler] using hemp)

theorem cyclerNext_mem (shuffle : ShuffleFn)
    (hperm : ∀ sd k l, (shuffle sd k l).Perm l) (c : CyclerState)
    (hbag : ∀ x ∈ c.bag, x ∈ c.items) (hne : c.items ≠ []) :
    (cyclerNext shuffle c).1 ∈ c.items ∧
    (cyclerNext shuffle c).2.items = c.items ∧
    (∀ x ∈ (cyclerNext shuffle c).2.bag, x ∈ (cyclerNext shuffle c).2.items) := by
  obtain ⟨items, seed, bag, lp, rf⟩ := c
  cases hb : bag with
  | cons a l =>
      subst hb
      rw [cyclerNext_cons]
      refine ⟨hbag a (List.mem_cons_self _ _), rfl, ?_⟩
      intro x hx
      exact hbag x (List.mem_cons_of_mem _ hx)
  | nil =>
      subst hb
      have hgperm : (refillGuard lp (shuffle seed rf items)).Perm items :=
        (refillGuard_perm _ _).trans (hperm seed rf items)
      cases hg : refillGuard lp (shuffle seed rf items) with
      | nil =>
          rw [hg] at hgperm
          exact absurd (List.length_eq_zero.mp hgperm.length_eq.symm) hne
      | cons a l =>
          rw [hg] at hgperm
          have hnext : cyclerNext shuffle ⟨items, seed, [], lp, rf⟩
              = (a, ⟨items, seed, l, some a.path, rf + 1⟩) := by
            simp only [cyclerNext, cyclerRefill, List.isEmpty_nil, if_true]
            simp only [hg]
          rw [hnext]
          refine ⟨hgperm.mem_iff.mp (List.mem_cons_self _ _), rfl, ?_⟩
          intro x hx
          exact hgperm.mem_iff.mp (List.mem_cons_of_mem _ hx)

theorem updateCycler_spec (bc : BumpersConfig) (shuffle : ShuffleFn)
    (hperm : ∀ sd k l, (shuffle sd k l).Perm l) (name : String) :
    ∀ cyclers : List (String × CyclerState),
    (∀ nc ∈ cyclers, (∃ p ∈ bc.pools, nc.2.items = p.2.items) ∧
      (∀ x ∈ nc.2.bag, x ∈ nc.2.items) ∧ nc.2.items ≠ []) →
    name ∈ cyclers.map Prod.fst →
    ((updateCycler shuffle name cyclers).1.path ∈ bumperPathsOf bc) ∧
    ((updateCycler shuffle name cyclers).2.map Prod.fst = cyclers.map Prod.fst) ∧
    (∀ nc ∈ (updateCycler shuffle name cyclers).2,
      (∃ p ∈ bc.pools, nc.2.items = p.2.items) ∧
      (∀ x ∈ nc.2.bag, x ∈ nc.2.items) ∧ nc.2.items ≠ []) := by
  intro cyclers
  induction cyclers with
  | nil => intro _ hmem; simp at hmem
  | cons nc0 rest ih =>
      intro hinv hmem
      obtain ⟨n0, c0⟩ := nc0
      have hinv0 := hinv (n0, c0) (List.mem_cons_self _ _)
      have hinvrest : ∀ nc ∈ rest, (∃ p ∈ bc.pools, nc.2.items = p.2.items) ∧
          (∀ x ∈ nc.2.bag, x ∈ nc.2.items) ∧ nc.2.items ≠ [] :=
        fun nc hnc => hinv nc (List.mem_cons_of_mem _ hnc)
      by_cases hn : n0 = name
      · obtain ⟨⟨p, hp, hpi⟩, hbag, hne⟩ := hinv0
        obtain ⟨hdraw, hitems, hbag2⟩ := cyclerNext_mem shuffle hperm c0 hbag hne
        simp only [updateCycler, hn, if_pos rfl]
        refine ⟨?_, by simp, ?_⟩
        · rw [bumperPathsOf]
          rw [List.mem_flatten]
          refine ⟨p.2.items.map BumperItem.path, ?_, ?_⟩
          · exact List.mem_map.mpr ⟨p, hp, rfl⟩
          · exact List.mem_map.mpr ⟨(cyclerNext shuffle c0).1, by rw [← hpi]; exact hdraw, rfl⟩
        · intro nc hnc
          rcases List.mem_cons.mp hnc with hnc | hnc
          · subst hnc
            exact ⟨⟨p, hp, by simpa [hitems] using hpi⟩, hbag2, by simpa [hitems] using hne⟩
          · exact hinvrest nc hnc
      · have hmem2 : name ∈ rest.map Prod.fst := by
          simp only [List.map_cons, List.mem_cons] at hmem
          rcases hmem with hm | hm
          · exact absurd hm.symm hn
          · exact hm
        obtain ⟨ih1, ih2, ih3⟩ := ih hinvrest hmem2
        simp only [updateCycler, if_neg hn]
        refine ⟨ih1, by simp [ih2], ?_⟩
        intro nc hnc
        rcases List.mem_cons.mp hnc with hnc | hnc
        · subst hnc; exact hinv0
        · exact ih3 nc hnc

theorem choosePoolName_spec (bc : BumpersConfig) (wchoice : WChoiceFn)
    (st : SelectorState) (hpn : st.poolNames = bc.pools.map Prod.fst)
    (hpne : bc.pools ≠ []) (name : String) (st2 : SelectorState)
    (hch : choosePoolName bc wchoice st = Except.ok (name, st2)) :
    name ∈ bc.pools.map Prod.fst ∧ st2.cyclers = st.cyclers ∧
      st2.poolNames = st.poolNames := by
  have hlen : 0 < (bc.pools.map Prod.fst).length := by
    simp only [List.length_map]
    exact List.length_pos.mpr hpne
  have hget : ∀ i : Nat, (bc.pools.map Prod.fst).getD (i % (bc.pools.map Prod.fst).length) ""
      ∈ bc.pools.map Prod.fst := by
    intro i
    have hilt : i % (bc.pools.map Prod.fst).length < (bc.pools.map Prod.fst).length :=
      Nat.mod_lt _ hlen
    rw [List.getD_eq_getElem _ _ hilt]
    exact List.getElem_mem _
  rw [choosePoolName] at hch
  by_cases h1 : bc.mixing_strategy = "round_robin"
  · rw [if_pos h1] at hch
    simp only [Except.ok.injEq, Prod.mk.injEq, rrChoose] at hch
    obtain ⟨hname, hst⟩ := hch
    refine ⟨?_, by rw [← hst], by rw [← hst]⟩
    rw [← hname, hpn]
    have := hget st.rrIndex
    rwa [← hpn] at this ⊢
  · rw [if_neg h1] at hch
    by_cases h2 : bc.mixing_strategy = "weighted"
    · rw [if_pos h2] at hch
      by_cases h3 : bc.pools.all (fun p => p.2.weight ≤ 0)
      · rw [if_pos h3] at hch
        simp only [Except.ok.injEq, Prod.mk.injEq, rrChoose] at hch
        obtain ⟨hname, hst⟩ := hch
        refine ⟨?_, by rw [← hst], by rw [← hst]⟩
        rw [← hname, hpn]
        have := hget st.rrIndex
        rwa [← hpn] at this ⊢
      · rw [if_neg h3] at hch
        simp only [Except.ok.injEq, Prod.mk.injEq] at hch
        obtain ⟨hname, hst⟩ := hch
        refine ⟨?_, by rw [← hst], by rw [← hst]⟩
        rw [← hname]
        exact hget (wchoice st.wDraws)
    · rw [if_neg h2] at hch
      simp at hch

theorem nextBumpersGo_spec (bc : BumpersConfig) (shuffle : ShuffleFn)
    (wchoice : WChoiceFn) (hperm : ∀ sd k l, (shuffle sd k l).Perm l)
    (hpne : bc.pools ≠ []) :
    ∀ (n : Nat) (st : SelectorState) (bumps : List BumperItem) (st2 : SelectorState),
    SelInv bc st →
    nextBumpersGo bc shuffle wchoice n st = Except.ok (bumps, st2) →
    bumps.length = n ∧ (∀ x ∈ bumps, x.path ∈ bumperPathsOf bc) ∧ SelInv bc st2 := by
  intro n
  induction n with
  | zero =>
      intro st bumps st2 hinv hok
      simp only [nextBumpersGo, Except.ok.injEq, Prod.mk.injEq] at hok
      obtain ⟨h1, h2⟩ := hok
      subst h2
      rw [← h1]
      exact ⟨rfl, by simp, hinv⟩
  | succ n2 ih =>
      intro st bumps st2 hinv hok
      simp only [nextBumpersGo] at hok
      cases hch : choosePoolName bc wchoice st with
      | error e => rw [hch] at hok; simp at hok
      | ok pr =>
          obtain ⟨name, stc⟩ := pr
          rw [hch] at hok
          dsimp only at hok
          obtain ⟨hname, hcy, hpn2⟩ :=
            choosePoolName_spec bc wchoice st hinv.1 hpne name stc hch
          have hnamecy : name ∈ stc.cyclers.map Prod.fst := by
            rw [hcy, hinv.2.1]
            exact hname
          have hinvc : ∀ nc ∈ stc.cyclers, (∃ p ∈ bc.pools, nc.2.items = p.2.items) ∧
              (∀ x ∈ nc.2.bag, x ∈ nc.2.items) ∧ nc.2.items ≠ [] := by
            rw [hcy]
            exact hinv.2.2
          obtain ⟨hdraw, hkeys, hinv3⟩ :=
            updateCycler_spec bc shuffle hperm name stc.cyclers hinvc hnamecy
          have hinvnew : SelInv bc { stc with cyclers := (updateCycler shuffle name stc.cyclers).2 } := by
            refine ⟨by simpa [hpn2] using hinv.1, ?_, hinv3⟩
            simp only
            rw [hkeys, hcy, hinv.2.1]
          cases hrec : nextBumpersGo bc shuffle wchoice n2
              { stc with cyclers := (updateCycler shuffle name stc.cyclers).2 } with
          | error e => rw [hrec] at hok; simp at hok
          | ok pr2 =>
              obtain ⟨rest, st3⟩ := pr2
              rw [hrec] at hok
              simp only [Except.ok.injEq, Prod.mk.injEq] at hok
              obtain ⟨hb, hst3⟩ := hok
              obtain ⟨hlen, hmem, hinv4⟩ := ih _ rest st3 hinvnew hrec
              rw [← hb, ← hst3]
              refine ⟨by simp [hlen], ?_, hinv4⟩
              intro x hx
              rcases List.mem_cons.mp hx with hx | hx
              · subst hx; exact hdraw
              · exact hmem x hx

theorem assembleGo_flags (cfg : ChannelConfig) (shuffle : ShuffleFn)
    (wchoice : WChoiceFn) (hperm : ∀ sd k l, (shuffle sd k l).Perm l)
    (hpne : cfg.bumpers.pools ≠ []) :
    ∀ (blocks : List SolvedBlock) (st : SelectorState) (entries : List PlaylistEntry),
    SelInv cfg.bumpers st →
    (∀ blk ∈ blocks, ∀ it ∈ blk.items, it.path ∉ bumperPathsOf cfg.bumpers) →
    assembleGo cfg shuffle wchoice blocks st = Except.ok entries →
    entries.map (fun e => isBumperPath cfg.bumpers e.path)
      = (blocks.map (fun blk =>
          chunkFlags cfg.bumpers.slots_per_break blk.items.length)).flatten := by
  intro blocks
  induction blocks with
  | nil =>
      intro st entries _ _ hok
      simp only [assembleGo, Except.ok.injEq] at hok
      rw [← hok]
      simp
  | cons blk rest ih =>
      intro st entries hinv hdisj hok
      simp only [assembleGo] at hok
      cases hb : nextBumpers cfg.bumpers shuffle wchoice st with
      | error er => rw [hb] at hok; simp at hok
      | ok pr =>
          obtain ⟨bumps, st2⟩ := pr
          rw [hb] at hok
          dsimp only at hok
          cases ht : assembleGo cfg shuffle wchoice rest st2 with
          | error er => rw [ht] at hok; simp at hok
          | ok tail =>
              rw [ht] at hok
              simp only [Except.ok.injEq] at hok
              obtain ⟨hlen, hmem, hinv2⟩ := nextBumpersGo_spec cfg.bumpers shuffle
                wchoice hperm hpne cfg.bumpers.slots_per_break st bumps st2 hinv hb
              rw [← hok]
              simp only [List.map_append, List.map_cons, List.flatten_cons, List.map_map]
              have hbumps : bumps.map
                  ((fun e => isBumperPath cfg.bumpers e.path)
                    ∘ (fun b => ({ path := b.path, media_type := b.media_type } : PlaylistEntry)))
                  = List.replicate cfg.bumpers.slots_per_break true := by
                rw [List.eq_replicate_iff]
                constructor
                · simpa using hlen
                · intro b hbmem
                  obtain ⟨x, hx, rfl⟩ := List.mem_map.mp hbmem
                  simp only [Function.comp, isBumperPath, decide_eq_true_eq]
                  exact hmem x hx
              have hitems : blk.items.map
                  ((fun e => isBumperPath cfg.bumpers e.path)
                    ∘ (fun it => ({ path := it.path, media_type := it.media_type } : PlaylistEntry)))
                  = List.replicate blk.items.length false := by
                rw [List.eq_replicate_iff]
                constructor
                · simp
                · intro b hbmem
                  obtain ⟨x, hx, rfl⟩ := List.mem_map.mp hbmem
                  simp only [Function.comp, isBumperPath, decide_eq_false_iff_not]
                  exact hdisj blk (List.mem_cons_self _ _) x hx
              rw [hbumps, hitems,
                ih st2 tail hinv2 (fun b hb2 => hdisj b (List.mem_cons_of_mem _ hb2)) ht]
              rw [chunkFlags, List.append_assoc]

/-- Claim C4: for a successfully assembled playlist whose blocks are all
non-empty, the bumper/content run structure (computed exactly as the
verifier computes it) is: the leading run is a bumper run of length
exactly slots_per_break starting at index 0, the final run is a content
run, every bumper run has length exactly slots_per_break, and every
content run is non-empty.  Hypotheses: the shuffle stream permutes its
input (what random.shuffle does), every extracted block is non-empty, and
content paths do not collide with bumper paths (the config-level path
uniqueness invariant). -/
theorem c4_run_structure (cfg : ChannelConfig) (oracle : CpOracle) (h : HashFn)
    (shuffle : ShuffleFn) (wchoice : WChoiceFn) (entries : List PlaylistEntry)
    (result : SolveResult)
    (hok : solve_to_yaml_obj cfg oracle h shuffle wchoice = Except.ok (entries, result))
    (hperm : ∀ sd k l, (shuffle sd k l).Perm l)
    (hblocksne : result.blocks ≠ [])
    (hitemsne : ∀ blk ∈ result.blocks, blk.items ≠ [])
    (hdisj : ∀ blk ∈ result.blocks, ∀ it ∈ blk.items,
      it.path ∉ bumperPathsOf cfg.bumpers) :
    (computeRuns (entries.map (fun e => isBumperPath cfg.bumpers e.path))).head?
        = some (true, cfg.bumpers.slots_per_break, 0) ∧
    (∃ m st2, (computeRuns (entries.map (fun e => isBumperPath cfg.bumpers e.path))).getLast?
        = some (false, m, st2)) ∧
    (∀ r ∈ computeRuns (entries.map (fun e => isBumperPath cfg.bumpers e.path)),
      (r.1 = true → r.2.1 = cfg.bumpers.slots_per_break) ∧
      (r.1 = false → 1 ≤ r.2.1)) := by
  rw [solve_to_yaml_obj] at hok
  by_cases hz : cfg.solver.seed = 0
  · rw [if_pos hz] at hok; simp at hok
  · rw [if_neg hz] at hok
    cases hs : solve_minimal_cycle cfg oracle with
    | error er => rw [hs] at hok; simp at hok
    | ok result2 =>
        rw [hs] at hok
        dsimp only at hok
        cases hi : initSelector cfg.bumpers result2.seed h with
        | error er => rw [hi] at hok; simp at hok
        | ok st0 =>
            rw [hi] at hok
            dsimp only at hok
            cases ha : assembleGo cfg shuffle wchoice result2.blocks st0 with
            | error er => rw [ha] at hok; simp at hok
            | ok entries2 =>
                rw [ha] at hok
                simp only [Except.ok.injEq, Prod.mk.injEq] at hok
                obtain ⟨hent, hres⟩ := hok
                rw [hres] at hi ha
                rw [hent] at ha
                obtain ⟨hinv0, hslots, hpne⟩ := initSelector_facts _ _ _ _ hi
                have hflags := assembleGo_flags cfg shuffle wchoice hperm hpne
                  result.blocks st0 entries hinv0 hdisj ha
                have hmapmap : result.blocks.map (fun blk =>
                    chunkFlags cfg.bumpers.slots_per_break blk.items.length)
                    = (result.blocks.map (fun blk => blk.items.length)).map
                        (chunkFlags cfg.bumpers.slots_per_break) := by
                  rw [List.map_map]
                  rfl
                rw [hmapmap] at hflags
                have hms1 : ∀ m ∈ result.blocks.map (fun blk => blk.items.length), 1 ≤ m := by
                  intro m hm
                  obtain ⟨blk, hblk, rfl⟩ := List.mem_map.mp hm
                  have := hitemsne blk hblk
                  cases hbi : blk.items with
                  | nil => exact absurd hbi this
                  | cons a l => simp
                have hmsne : result.blocks.map (fun blk => blk.items.length) ≠ [] := by
                  intro hcon
                  exact hblocksne (List.map_eq_nil_iff.mp hcon)
                have hruns := computeRuns_chunks cfg.bumpers.slots_per_break
                  (by omega) (result.blocks.map (fun blk => blk.items.length)) hms1 hmsne
                rw [hflags, hruns]
                obtain ⟨m1, msrest, hmseq⟩ : ∃ m1 msrest,
                    result.blocks.map (fun blk => blk.items.length) = m1 :: msrest := by
                  cases hcase : result.blocks.map (fun blk => blk.items.length) with
                  | nil => exact absurd hcase hmsne
                  | cons a b => exact ⟨a, b, rfl⟩
                rw [hmseq]
                refine ⟨rfl, ?_, ?_⟩
                · obtain ⟨m, st2, hlast, _⟩ :=
                    expectedRuns_getLast cfg.bumpers.slots_per_break (m1 :: msrest) 0 (by simp)
                  exact ⟨m, st2, hlast⟩
                · intro r hr
                  obtain ⟨h1, h2⟩ := expectedRuns_mem cfg.bumpers.slots_per_break
                    (m1 :: msrest) 0 r hr
                  refine ⟨h1, fun hf => ?_⟩
                  obtain ⟨m, hm, he⟩ := h2 hf
                  rw [he]
                  rw [hmseq] at hms1
                  exact hms1 m hm

/-- Bumper-then-content playlist assembled for cfgW under the identity
shuffle. -/
def entriesW4 : List PlaylistEntry :=
  [{ path := "bump1", media_type := "other_video" },
   { path := "A", media_type := "other_video" },
   { path := "B", media_type := "other_video" },
   { path := "bump1", media_type := "other_video" },
   { path := "C", media_type := "movie" }]

/-- Concrete check of c4_run_structure on the cfgW pipeline. -/
theorem c4_run_structure_witness :
    solve_to_yaml_obj cfgW oracleW c6Hash c8Shuffle c6W = Except.ok (entriesW4, resW) ∧
    (∀ blk ∈ resW.blocks, blk.items ≠ []) ∧
    (computeRuns (entriesW4.map (fun e => isBumperPath cfgW.bumpers e.path))).head?
      = some (true, cfgW.bumpers.slots_per_break, 0) :=
  ⟨by rfl, by decide,
   (c4_run_structure cfgW oracleW c6Hash c8Shuffle c6W entriesW4 resW (by rfl)
     (fun _ _ _ => List.Perm.refl _) (by decide) (by decide) (by decide)).1⟩

/-! ## Verifier duration lookup and block checks (verify.py) -/

/-- The duration dictionary of verify.py lines 69-71: content durations
first, then every bumper pool's durations update the dict; as with
dict.update, a later binding for the same path wins, so lookups scan the
reversed association list. -/
def durAssoc (cfg : ChannelConfig) : List (String × Nat) :=
  cfg.items.map (fun it => (it.path, it.duration_s))
    ++ (cfg.bumpers.pools.map
        (fun p => p.2.items.map (fun it => (it.path, it.duration_s)))).flatten

/-- duration_by_path_s.get(p, d). -/
def durGet (cfg : ChannelConfig) (p : String) (d : Nat) : Nat :=
  (((durAssoc cfg).reverse.find? (fun q => q.1 = p)).map Prod.snd).getD d

/-- Verifier findings relevant to the unknown-path, repeat-policy and
block-duration checks, one constructor per distinct ERROR message site. -/
inductive Finding where
  | unknownPaths (firstFew : List (Nat × String))
  | missingBaseItems (firstFew : List String)
  | nonRepeatableCount (p : String) (c : Nat)
  | repeatableExceeds (p : String) (c : Nat)
  | noContentBlocks
  | emptyContentBlock (bi : Nat)
  | longFormNotSolo (bi : Nat)
  | blockExceedsCapacity (bi : Nat)
deriving DecidableEq, Repr

/-- The scan of verify.py lines 140-144 collecting (index, path) pairs
that are neither bumpers nor catalogued content. -/
def unknownScan (cfg : ChannelConfig) : Nat → List String → List (Nat × String)
  | _, [] => []
  | idx, p :: rest =>
      if !(isBumperPath cfg.bumpers p) && !(decide (p ∈ cfg.items.map Item.path))
      then (idx, p) :: unknownScan cfg (idx + 1) rest
      else unknownScan cfg (idx + 1) rest

/-- Check 3 of the verifier (verify.py lines 139-151): one ERROR listing
the first few unknown paths, when any exist. -/
def unknownPathsCheck (cfg : ChannelConfig) (paths : List String) : List Finding :=
  let unknown := unknownScan cfg 0 paths
  if unknown.isEmpty then [] else [Finding.unknownPaths (unknown.take 5)]

/-- The content blocks the verifier carves out of the playlist: the
non-bumper runs, each materialized as its slice of paths (verify.py lines
213-218). -/
def contentBlocksOf (cfg : ChannelConfig) (paths : List String) : List (List String) :=
  (computeRuns (paths.map (isBumperPath cfg.bumpers))).filterMap
    (fun r => if r.1 then none else some ((paths.drop r.2.2).take r.2.1))

/-- The per-block body of check 6 (verify.py lines 223-251): durations are
summed with .get(p, 0) so unknown paths contribute zero; a block holding
any item of duration at least block_s (when the flag is set) must be a
singleton and skips the ceiling check; otherwise the ceiling is
enforced. -/
def blockCheckOne (cfg : ChannelConfig) (bi : Nat) (block : List String) : List Finding :=
  let cap_s := cfg.solver.block_s
  let ceiling_s := cap_s + cfg.solver.allow_short_overflow_s
  let dur_s := (block.map (fun p => durGet cfg p 0)).sum
  if block.isEmpty then [Finding.emptyContentBlock bi]
  else
    if cfg.solver.longform_consumes_block
        && !(block.filter (fun p => decide (cap_s ≤ durGet cfg p 0))).isEmpty then
      if block.length ≠ 1 then [Finding.longFormNotSolo bi] else []
    else
      if ceiling_s < dur_s then [Finding.blockExceedsCapacity bi] else []

def blockChecksGo (cfg : ChannelConfig) : Nat → List (List String) → List Finding
  | _, [] => []
  | bi, block :: rest => blockCheckOne cfg bi block ++ blockChecksGo cfg (bi + 1) rest

/-- Check 6 of the verifier (verify.py lines 209-251). -/
def blockChecks (cfg : ChannelConfig) (blocks : List (List String)) : List Finding :=
  if blocks.isEmpty then [Finding.noContentBlocks] else blockChecksGo cfg 0 blocks

/-- An uncaught Python exception aborting the verifier. -/
inductive VerifyCrash where
  | keyError (p : String)
deriving DecidableEq, Repr

/-- One counts[p] = counts.get(p, 0) + 1 step on the insertion-ordered
counts dict of verify.py lines 154-159. -/
def countsInsert (p : String) : List (String × Nat) → List (String × Nat)
  | [] => [(p, 1)]
  | (q, c) :: rest =>
      if q = p then (q, c + 1) :: rest else (q, c) :: countsInsert p rest

/-- The counts dict of check 4 (verify.py lines 154-159): every non-bumper
playlist path with its multiplicity, in first-occurrence order, unknown
paths included - check 3 only appends a finding and does not remove
them. -/
def contentCounts (cfg : ChannelConfig) (paths : List String) : List (String × Nat) :=
  paths.foldl
    (fun acc p => if isBumperPath cfg.bumpers p then acc else countsInsert p acc) []

/-- The missing-base-items part of check 4 (verify.py lines 161-163). -/
def missingCheck (cfg : ChannelConfig) (counts : List (String × Nat)) : List Finding :=
  let missing := (cfg.items.map Item.path).filter
    (fun p => (((counts.find? (fun q => q.1 = p)).map Prod.snd).getD 0) == 0)
  if missing.isEmpty then [] else [Finding.missingBaseItems (missing.take 5)]

/-- The per-path loop of check 4 (verify.py lines 165-181).  The lookup
base = content_by_path[p] is an unguarded dict access: for a path outside
the content catalog it raises KeyError, which nothing catches, so the
loop's result is an Except. -/
def repeatPolicyLoop (cfg : ChannelConfig) :
    List (String × Nat) → Except VerifyCrash (List Finding)
  | [] => Except.ok []
  | (p, c) :: rest =>
      match cfg.items.reverse.find? (fun it => it.path = p) with
      | none => Except.error (VerifyCrash.keyError p)
      | some base =>
          let f1 := if !base.repeatable && c != 1
                    then [Finding.nonRepeatableCount p c] else []
          let f2 := if base.repeatable && decide (1 + base.max_extra_uses < c)
                    then [Finding.repeatableExceeds p c] else []
          match repeatPolicyLoop cfg rest with
          | Except.error e => Except.error e
          | Except.ok tail => Except.ok (f1 ++ f2 ++ tail)

/-- Check 4 of the verifier (verify.py lines 153-181): the missing-items
scan, then the counts loop; a KeyError in the loop aborts the whole call,
discarding every finding collected so far. -/
def repeatPolicyCheck (cfg : ChannelConfig) (paths : List String) :
    Except VerifyCrash (List Finding) :=
  let counts := contentCounts cfg paths
  match repeatPolicyLoop cfg counts with
  | Except.error e => Except.error e
  | Except.ok fs => Except.ok (missingCheck cfg counts ++ fs)

/-- Checks 3, 4 and 6 of verify_yaml_against_config composed in source
order, with the uncaught KeyError of check 4 aborting the verifier.
Checks 1, 2, 5 and 7 (schema, bumper duplication, bumper gaps, sequential
order) are omitted: none of them raises or filters the playlist, so they
cannot mask the crash, and none contributes a finding in the scenario at
issue. -/
def verifyChecks346 (cfg : ChannelConfig) (paths : List String) :
    Except VerifyCrash (List Finding) :=
  match repeatPolicyCheck cfg paths with
  | Except.error e => Except.error e
  | Except.ok f4 =>
      Except.ok (unknownPathsCheck cfg paths ++ f4
        ++ blockChecks cfg (contentBlocksOf cfg paths))

/-- Concrete scenario: the config knows bumper i1 and content A, and the
playlist smuggles an uncatalogued path into A's block. -/
def cfg10 : ChannelConfig := cfg3

def paths10 : List String := ["i1", "A", "ghost"]

/-- Claim C10 describes the block-duration check accurately in isolation,
but the program cannot exhibit the claimed observable.  In isolation: the
uncatalogued path ghost has .get(p, 0) duration 0, the block-duration
check on the scenario playlist therefore passes (the ghost adds nothing to
the sum and, block_s being positive, never counts as long-form), and the
unknown-path scan alone reports exactly the one unknown-paths ERROR.  But
the repeat-policy check that the verifier runs in between performs the
unguarded dict access content_by_path[p] (verify.py line 166) on every
non-bumper playlist path, so on this same playlist the verifier aborts
with an uncaught KeyError for ghost before the block-duration check is
reached, and no findings list is ever reported:
"only the unknown-paths ERROR finding reported" can never happen. -/
theorem c10_unknown_path_keyerror_codebug :
    durGet cfg10 "ghost" 0 = 0 ∧
    blockChecks cfg10 (contentBlocksOf cfg10 paths10) = [] ∧
    unknownPathsCheck cfg10 paths10 = [Finding.unknownPaths [(2, "ghost")]] ∧
    repeatPolicyCheck cfg10 paths10 = Except.error (VerifyCrash.keyError "ghost") ∧
    verifyChecks346 cfg10 paths10 = Except.error (VerifyCrash.keyError "ghost") :=
  ⟨by decide, by decide, by decide, by rfl, by rfl⟩

end Clickor
